import Mathlib

/-!
# Verification of the py-jitabi core

A shallow embedding, in Lean 4, of the parts of the `py-jitabi` repository
that the specification's claims are about:

* the wire codec (pack/unpack of the Antelope ABI binary format); the codec
  itself lives in C Jinja templates that only ship in compiled form, so it is
  modelled from the specification's byte-level contract (§4.D of the spec);
* the ABI model and type resolver (`jitabi/protocol.py`): modifier peeling,
  alias resolution with cycle detection, built-in alias/struct injection,
  and the content hash;
* the cache fingerprint (`jitabi/__init__.py: hash_abi_for_cache`), the cache
  warm-start walk (`jitabi/cache.py: Cache._warm_from_disk`), and the
  `JITContext.module_for_abi` caching state machine;
* the variant scalar-dispatch table built by
  `jitabi/codegen/cpython.py: try_c_source_from_abi`.

Machine integers are modelled as `Nat`/`Int` with explicit bounds, byte
strings as `List Nat`, Python strings as `List Char`, Python dicts as
association lists with insert-overwrite semantics, and raising code as
`Except`-valued functions.
-/

namespace Jitabi

/-! ## Wire-format primitives (spec §4.D)

Byte sequences are `List Nat` with every element `< 256`.
-/

/-- Little-endian fixed-width encoding of `n` into `k` bytes
(`k ∈ {1,2,4,8,16}` for the built-in integer widths). -/
def encLE : Nat → Nat → List Nat
  | 0, _ => []
  | k + 1, n => n % 256 :: encLE k (n / 256)

/-- Little-endian fixed-width decode of `k` bytes; returns the value and the
unread remainder, or `none` on underflow. -/
def decLE : Nat → List Nat → Option (Nat × List Nat)
  | 0, bs => some (0, bs)
  | _ + 1, [] => none
  | k + 1, b :: bs =>
    match decLE k bs with
    | some (m, rest) => some (b + 256 * m, rest)
    | none => none

theorem encLE_length (k n : Nat) : (encLE k n).length = k := by
  induction k generalizing n with
  | zero => rfl
  | succ k ih => simp [encLE, ih]

theorem decLE_encLE (k n : Nat) (r : List Nat) (h : n < 256 ^ k) :
    decLE k (encLE k n ++ r) = some (n, r) := by
  induction k generalizing n with
  | zero =>
    have hn : n = 0 := by simpa using h
    subst hn
    simp [encLE, decLE]
  | succ k ih =>
    have hdiv : n / 256 < 256 ^ k :=
      Nat.div_lt_of_lt_mul (by rw [Nat.pow_succ] at h; omega)
    simp only [encLE, List.cons_append, decLE, List.append_eq, ih (n / 256) hdiv]
    have h2 : n % 256 + 256 * (n / 256) = n := by omega
    rw [h2]

/-- ULEB128 encoding of an unsigned integer: 7 payload bits per byte,
high bit set on every byte but the last (spec §4.D, varuint32). -/
def encULEB (n : Nat) : List Nat :=
  if n < 128 then [n]
  else (n % 128 + 128) :: encULEB (n / 128)
termination_by n
decreasing_by
  exact Nat.div_lt_self (by omega) (by omega)

/-- ULEB128 decode: bytes with the high bit set continue the value. -/
def decULEB : List Nat → Option (Nat × List Nat)
  | [] => none
  | b :: bs =>
    if b < 128 then some (b, bs)
    else
      match decULEB bs with
      | some (m, rest) => some (b - 128 + 128 * m, rest)
      | none => none

theorem decULEB_encULEB (n : Nat) (r : List Nat) :
    decULEB (encULEB n ++ r) = some (n, r) := by
  induction n using Nat.strong_induction_on with
  | _ n ih =>
    by_cases h : n < 128
    · rw [encULEB, if_pos h]
      simp [decULEB, h]
    · have hlt : n / 128 < n := Nat.div_lt_self (by omega) (by omega)
      rw [encULEB, if_neg h, List.cons_append, decULEB]
      rw [if_neg (by omega), ih (n / 128) hlt]
      show some (n % 128 + 128 - 128 + 128 * (n / 128), r) = some (n, r)
      have h2 : n % 128 + 128 - 128 + 128 * (n / 128) = n := by omega
      rw [h2]

/-- ULEB128 encodings are never empty (a value always occupies ≥ 1 byte). -/
theorem encULEB_ne_nil (n : Nat) : encULEB n ≠ [] := by
  rw [encULEB]
  split <;> simp

/-- The zig-zag mapping of a 32-bit signed integer
(`(n << 1) ^ (n >> 31)` in the source's two's-complement arithmetic):
non-negative `i` maps to `2*i`, negative `i` to `-2*i - 1`. -/
def zigzag (i : Int) : Nat :=
  if 0 ≤ i then (2 * i).toNat else (-2 * i - 1).toNat

/-- Inverse of the zig-zag mapping. -/
def unzigzag (n : Nat) : Int :=
  if n % 2 = 0 then (n / 2 : Nat) else -(((n + 1) / 2 : Nat) : Int)

theorem unzigzag_zigzag (i : Int) : unzigzag (zigzag i) = i := by
  unfold zigzag unzigzag
  by_cases h : 0 ≤ i
  · simp only [h, if_true]
    have h2 : (2 * i).toNat = 2 * i.toNat := by omega
    rw [h2, if_pos (by omega)]
    have h3 : 2 * i.toNat / 2 = i.toNat := by omega
    rw [h3]
    omega
  · simp only [h, if_false]
    have h2 : (-2 * i - 1).toNat = 2 * (-i - 1).toNat + 1 := by omega
    rw [h2, if_neg (by omega)]
    have h3 : (2 * (-i - 1).toNat + 1 + 1) / 2 = (-i - 1).toNat + 1 := by omega
    rw [h3]
    omega

theorem zigzag_lt (i : Int) (k : Nat) (h1 : -(2 ^ k) ≤ i) (h2 : i < 2 ^ k) :
    zigzag i < 2 ^ (k + 1) := by
  unfold zigzag
  have hp : ((2 : Int) ^ k) = ((2 ^ k : Nat) : Int) := by push_cast; ring
  rw [pow_succ]
  by_cases h : 0 ≤ i
  · rw [if_pos h]
    rw [hp] at h2
    omega
  · rw [if_neg h]
    rw [hp] at h1
    omega

/-- Two's-complement little-endian encoding of a signed integer into `k`
bytes: the representative of `i` modulo `2^(8k)` encoded unsigned. -/
def encIntLE (k : Nat) (i : Int) : List Nat :=
  encLE k (i % (2 ^ (8 * k)) : Int).toNat

/-- Two's-complement little-endian decode of `k` bytes: values at or above
`2^(8k-1)` represent negatives. -/
def decIntLE (k : Nat) (bs : List Nat) : Option (Int × List Nat) :=
  (decLE k bs).map fun p =>
    (if p.1 < 2 ^ (8 * k - 1) then (p.1 : Int) else (p.1 : Int) - 2 ^ (8 * k), p.2)

theorem decIntLE_encIntLE (k : Nat) (i : Int) (r : List Nat) (hk : 0 < k)
    (h1 : -(2 ^ (8 * k - 1)) ≤ i) (h2 : i < 2 ^ (8 * k - 1)) :
    decIntLE k (encIntLE k i ++ r) = some (i, r) := by
  have hsplit : 8 * k - 1 + 1 = 8 * k := by omega
  have hM : (2 : Int) ^ (8 * k) = 2 ^ (8 * k - 1) * 2 := by
    rw [← pow_succ, hsplit]
  have hcast1 : ((2 ^ (8 * k - 1) : Nat) : Int) = (2 : Int) ^ (8 * k - 1) := by
    push_cast; ring
  have hcast2 : ((2 ^ (8 * k) : Nat) : Int) = (2 : Int) ^ (8 * k) := by
    push_cast; ring
  have hHpos : (0 : Int) < 2 ^ (8 * k - 1) := by positivity
  have h256 : (256 : Nat) ^ k = 2 ^ (8 * k) := by
    rw [show (256 : Nat) = 2 ^ 8 from rfl, ← pow_mul]
  have hmod0 : (0 : Int) ≤ i % (2 ^ (8 * k)) := Int.emod_nonneg i (by positivity)
  have hmodlt : i % (2 ^ (8 * k)) < 2 ^ (8 * k) := Int.emod_lt_of_pos i (by positivity)
  have hlt : (i % (2 ^ (8 * k)) : Int).toNat < 256 ^ k := by
    rw [h256]
    omega
  unfold encIntLE decIntLE
  rw [decLE_encLE _ _ _ hlt]
  by_cases hpos : 0 ≤ i
  · have hval : i % ((2 : Int) ^ (8 * k)) = i := by
      apply Int.emod_eq_of_lt hpos
      omega
    rw [hval]
    have hcond : i.toNat < 2 ^ (8 * k - 1) := by omega
    simp only [Option.map_some']
    rw [if_pos hcond]
    have hres : ((i.toNat : Int)) = i := by omega
    rw [hres]
  · have hval : i % ((2 : Int) ^ (8 * k)) = i + 2 ^ (8 * k) := by
      have e1 : (i + 2 ^ (8 * k) * 1) % ((2 : Int) ^ (8 * k)) = i % (2 ^ (8 * k)) :=
        Int.add_mul_emod_self_left i (2 ^ (8 * k)) 1
      rw [mul_one] at e1
      rw [← e1]
      apply Int.emod_eq_of_lt <;> omega
    rw [hval]
    have hcond : ¬ (((i + 2 ^ (8 * k) : Int)).toNat < 2 ^ (8 * k - 1)) := by omega
    simp only [Option.map_some']
    rw [if_neg hcond]
    have hres : (((i + 2 ^ (8 * k) : Int)).toNat : Int) - 2 ^ (8 * k) = i := by omega
    rw [hres]

/-! ## The wire codec (spec §4.D)

Modelled from the spec: the per-type `pack_<T>` / `unpack_<T>` functions are
emitted from C Jinja templates that are not part of the Python sources, so
the codec below follows the byte-level contract of spec §4.D for a
fully-resolved type.  Floats are represented by their IEEE-754 bit patterns
(a `Nat` below the width bound); text strings by their UTF-8 byte payload.
A struct is a list of `(field type, is-extension)` pairs; a variant is the
ordered list of its alternatives.
-/

/-- A fully resolved wire type (modifier chains already expanded:
`T[]` is `warray`, `T?` is `woption`, a trailing `$` is the Bool flag on a
struct field). `wuint k`/`wint k` are the `k`-byte little-endian integer
types (`k ∈ {1,2,4,8,16}`). -/
inductive WType where
  | wbool : WType
  | wuint : Nat → WType
  | wint : Nat → WType
  | wvaruint32 : WType
  | wvarint32 : WType
  | wfloat32 : WType
  | wfloat64 : WType
  | wbytes : WType
  | wstring : WType
  | wraw : Nat → WType
  | warray : WType → WType
  | woption : WType → WType
  | wstruct : List (WType × Bool) → WType
  | wvariant : List WType → WType
  deriving Repr

/-- The dynamically-typed host value representation (spec §1: booleans,
integers, floats, byte strings, text strings, sequences, mappings).
`vnat` carries unsigned integers and float bit patterns, `vint` signed
integers, `vbytes` byte strings, raw blobs and UTF-8 text payloads,
`vstruct` the field values of a mapping in declaration order, and
`vvariant` a tagged alternative. -/
inductive WVal where
  | vbool : Bool → WVal
  | vnat : Nat → WVal
  | vint : Int → WVal
  | vbytes : List Nat → WVal
  | vnone : WVal
  | vsome : WVal → WVal
  | vlist : List WVal → WVal
  | vstruct : List WVal → WVal
  | vvariant : Nat → WVal → WVal
  deriving Repr

/-- Discriminator for the absent value (Python `None`). -/
def WVal.isNone : WVal → Bool
  | .vnone => true
  | _ => false

open WType WVal

mutual

/-- Well-typedness of a host value at a wire type, including the numeric
range checks that pack enforces (spec §4.D "Numeric ranges") and — for this
"frame" version — the requirement that every extension field is present.
`wtFields`/`wtList`/`wtAlt` are the pointwise versions for struct fields,
array elements and the selected variant alternative. -/
def wt : WType → WVal → Bool
  | wbool, vbool _ => true
  | wuint k, vnat n => decide (n < 2 ^ (8 * k))
  | wint k, vint i => decide (0 < k ∧ -(2 ^ (8 * k - 1)) ≤ i ∧ i < 2 ^ (8 * k - 1))
  | wvaruint32, vnat n => decide (n < 2 ^ 32)
  | wvarint32, vint i => decide (-(2 ^ 31) ≤ i ∧ i < 2 ^ 31)
  | wfloat32, vnat b => decide (b < 2 ^ 32)
  | wfloat64, vnat b => decide (b < 2 ^ 64)
  | wbytes, vbytes bs => decide (bs.length < 2 ^ 32) && bs.all (fun b => decide (b < 256))
  | wstring, vbytes bs => decide (bs.length < 2 ^ 32) && bs.all (fun b => decide (b < 256))
  | wraw n, vbytes bs => decide (bs.length = n) && bs.all (fun b => decide (b < 256))
  | warray t, vlist vs => decide (vs.length < 2 ^ 32) && wtList t vs
  | woption _, vnone => true
  | woption t, vsome v => wt t v
  | wstruct fs, vstruct vs => wtFields fs vs
  | wvariant alts, vvariant tag v => wtAlt alts tag v
  | _, _ => false

def wtList : WType → List WVal → Bool
  | _, [] => true
  | t, v :: vs => wt t v && wtList t vs

def wtFields : List (WType × Bool) → List WVal → Bool
  | [], [] => true
  | (t, ext) :: fs, v :: vs =>
    (!ext || !v.isNone) && wt t v && wtFields fs vs
  | _, _ => false

def wtAlt : List WType → Nat → WVal → Bool
  | [], _, _ => false
  | t :: _, 0, v => wt t v
  | _ :: ts, n + 1, v => wtAlt ts n v

end

/-- True when the remaining fields of a struct are all extension fields and
the remaining values all absent: the configuration in which pack stops
emitting (spec §4.D Extension, invariant I3). -/
def allExtNone : List (WType × Bool) → List WVal → Bool
  | [], [] => true
  | (_, ext) :: fs, v :: vs => ext && v.isNone && allExtNone fs vs
  | _, _ => false

mutual

/-- Pack a host value at a wire type to bytes (spec §4.D), or fail
(`none`) on a type mismatch, range error, or extension-rule violation. -/
def pack : WType → WVal → Option (List Nat)
  | wbool, vbool b => some [if b then 1 else 0]
  | wuint k, vnat n => if n < 2 ^ (8 * k) then some (encLE k n) else none
  | wint k, vint i =>
    if -(2 ^ (8 * k - 1)) ≤ i ∧ i < 2 ^ (8 * k - 1) then some (encIntLE k i) else none
  | wvaruint32, vnat n => if n < 2 ^ 32 then some (encULEB n) else none
  | wvarint32, vint i =>
    if -(2 ^ 31) ≤ i ∧ i < 2 ^ 31 then some (encULEB (zigzag i)) else none
  | wfloat32, vnat b => if b < 2 ^ 32 then some (encLE 4 b) else none
  | wfloat64, vnat b => if b < 2 ^ 64 then some (encLE 8 b) else none
  | wbytes, vbytes bs =>
    if bs.length < 2 ^ 32 then some (encULEB bs.length ++ bs) else none
  | wstring, vbytes bs =>
    if bs.length < 2 ^ 32 then some (encULEB bs.length ++ bs) else none
  | wraw n, vbytes bs => if bs.length = n then some bs else none
  | warray t, vlist vs =>
    if vs.length < 2 ^ 32 then
      match packList t vs with
      | some body => some (encULEB vs.length ++ body)
      | none => none
    else none
  | woption _, vnone => some [0]
  | woption t, vsome v =>
    match pack t v with
    | some body => some (1 :: body)
    | none => none
  | wstruct fs, vstruct vs => packFields fs vs
  | wvariant alts, vvariant tag v =>
    if tag < alts.length then
      match packAlt alts tag v with
      | some body => some (encULEB tag ++ body)
      | none => none
    else none
  | _, _ => none

def packList : WType → List WVal → Option (List Nat)
  | _, [] => some []
  | t, v :: vs =>
    match pack t v, packList t vs with
    | some b, some rest => some (b ++ rest)
    | _, _ => none

def packFields : List (WType × Bool) → List WVal → Option (List Nat)
  | [], [] => some []
  | (t, ext) :: fs, v :: vs =>
    if ext && v.isNone then
      -- absent extension field: emit nothing, and nothing after it (I3)
      if allExtNone fs vs then some [] else none
    else
      match pack t v, packFields fs vs with
      | some b, some rest => some (b ++ rest)
      | _, _ => none
  | _, _ => none

def packAlt : List WType → Nat → WVal → Option (List Nat)
  | [], _, _ => none
  | t :: _, 0, v => pack t v
  | _ :: ts, n + 1, v => packAlt ts n v

end

mutual

/-- Unpack bytes at a wire type (spec §4.D): returns the decoded value and
the unread remainder, or `none` on underflow / invalid data.  At an
extension field the decoder checks whether the buffer is exhausted and, if
so, decodes the remaining fields as absent (spec §4.D Extension). -/
def unpack : WType → List Nat → Option (WVal × List Nat)
  | wbool, b :: bs =>
    if b = 0 then some (vbool false, bs)
    else if b = 1 then some (vbool true, bs)
    else none
  | wbool, [] => none
  | wuint k, bs => (decLE k bs).map fun p => (vnat p.1, p.2)
  | wint k, bs => (decIntLE k bs).map fun p => (vint p.1, p.2)
  | wvaruint32, bs =>
    match decULEB bs with
    | some (n, rest) => if n < 2 ^ 32 then some (vnat n, rest) else none
    | none => none
  | wvarint32, bs =>
    match decULEB bs with
    | some (n, rest) => if n < 2 ^ 32 then some (vint (unzigzag n), rest) else none
    | none => none
  | wfloat32, bs => (decLE 4 bs).map fun p => (vnat p.1, p.2)
  | wfloat64, bs => (decLE 8 bs).map fun p => (vnat p.1, p.2)
  | wbytes, bs =>
    match decULEB bs with
    | some (len, rest) =>
      if len ≤ rest.length then some (vbytes (rest.take len), rest.drop len) else none
    | none => none
  | wstring, bs =>
    match decULEB bs with
    | some (len, rest) =>
      if len ≤ rest.length then some (vbytes (rest.take len), rest.drop len) else none
    | none => none
  | wraw n, bs =>
    if n ≤ bs.length then some (vbytes (bs.take n), bs.drop n) else none
  | warray t, bs =>
    match decULEB bs with
    | some (n, rest) =>
      if n < 2 ^ 32 then
        match unpackList t n rest with
        | some (vs, rest2) => some (vlist vs, rest2)
        | none => none
      else none
    | none => none
  | woption t, b :: bs =>
    if b = 0 then some (vnone, bs)
    else if b = 1 then
      match unpack t bs with
      | some (v, rest) => some (vsome v, rest)
      | none => none
    else none
  | woption _, [] => none
  | wstruct fs, bs =>
    match unpackFields fs bs with
    | some (vs, rest) => some (vstruct vs, rest)
    | none => none
  | wvariant alts, bs =>
    match decULEB bs with
    | some (tag, rest) =>
      if tag < alts.length then
        match unpackAlt alts tag rest with
        | some (v, rest2) => some (vvariant tag v, rest2)
        | none => none
      else none
    | none => none

def unpackList : WType → Nat → List Nat → Option (List WVal × List Nat)
  | _, 0, bs => some ([], bs)
  | t, n + 1, bs =>
    match unpack t bs with
    | some (v, rest) =>
      match unpackList t n rest with
      | some (vs, rest2) => some (v :: vs, rest2)
      | none => none
    | none => none

def unpackFields : List (WType × Bool) → List Nat → Option (List WVal × List Nat)
  | [], bs => some ([], bs)
  | (t, ext) :: fs, bs =>
    if ext && bs.isEmpty then
      -- buffer exhausted at an extension field: remaining fields are absent
      match unpackFields fs [] with
      | some (vs, rest) => some (vnone :: vs, rest)
      | none => none
    else
      match unpack t bs with
      | some (v, rest) =>
        match unpackFields fs rest with
        | some (vs, rest2) => some (v :: vs, rest2)
        | none => none
      | none => none

def unpackAlt : List WType → Nat → List Nat → Option (WVal × List Nat)
  | [], _, _ => none
  | t :: _, 0, bs => unpack t bs
  | _ :: ts, n + 1, bs => unpackAlt ts n bs

end

mutual

/-- Every encoding of a value of this type occupies at least one byte.
False only for `raw(0)`, zero-width integers and structs none of whose
fields is positively sized. -/
def posSize : WType → Bool
  | wbool => true
  | wuint k => decide (0 < k)
  | wint k => decide (0 < k)
  | wvaruint32 => true
  | wvarint32 => true
  | wfloat32 => true
  | wfloat64 => true
  | wbytes => true
  | wstring => true
  | wraw n => decide (0 < n)
  | warray _ => true
  | woption _ => true
  | wstruct fs => posFields fs
  | wvariant _ => true

def posFields : List (WType × Bool) → Bool
  | [] => false
  | (t, _) :: fs => posSize t || posFields fs

end

mutual

/-- Every extension-flagged field type, anywhere inside this type, has a
positive minimum encoding size: a present extension value then occupies at
least one byte, so "buffer exhausted" identifies an absent extension field
unambiguously. -/
def extOk : WType → Bool
  | warray t => extOk t
  | woption t => extOk t
  | wstruct fs => extOkFields fs
  | wvariant alts => extOkAlts alts
  | _ => true

def extOkFields : List (WType × Bool) → Bool
  | [] => true
  | (t, ext) :: fs => (!ext || posSize t) && extOk t && extOkFields fs

def extOkAlts : List WType → Bool
  | [] => true
  | t :: ts => extOk t && extOkAlts ts

end

/-- Round-trip statement for a single value: a well-typed value packs
successfully, the bytes are nonempty when the type is positively sized,
and unpacking the bytes before any remainder recovers the value exactly. -/
def RT1 (t : WType) (v : WVal) : Prop :=
  wt t v = true → extOk t = true →
    ∃ bs, pack t v = some bs ∧ (posSize t = true → bs ≠ []) ∧
      ∀ r, unpack t (bs ++ r) = some (v, r)

/-- Round-trip statement for array elements. -/
def RT2 (t : WType) (vs : List WVal) : Prop :=
  wtList t vs = true → extOk t = true →
    ∃ bs, packList t vs = some bs ∧
      ∀ r, unpackList t vs.length (bs ++ r) = some (vs, r)

/-- Round-trip statement for struct fields with all extension fields
present. -/
def RT3 (fs : List (WType × Bool)) (vs : List WVal) : Prop :=
  wtFields fs vs = true → extOkFields fs = true →
    ∃ bs, packFields fs vs = some bs ∧ (posFields fs = true → bs ≠ []) ∧
      ∀ r, unpackFields fs (bs ++ r) = some (vs, r)

/-- Round-trip statement for a selected variant alternative. -/
def RT4 (alts : List WType) (tag : Nat) (v : WVal) : Prop :=
  wtAlt alts tag v = true → extOkAlts alts = true →
    tag < alts.length ∧
      ∃ bs, packAlt alts tag v = some bs ∧
        ∀ r, unpackAlt alts tag (bs ++ r) = some (v, r)

theorem pow256 (k : Nat) : (256 : Nat) ^ k = 2 ^ (8 * k) := by
  rw [show (256 : Nat) = 2 ^ 8 from rfl, ← pow_mul]

/-- The simultaneous round-trip induction, on a size bound. -/
theorem rtStrong : ∀ N : Nat,
    (∀ t v, sizeOf t + sizeOf v ≤ N → RT1 t v) ∧
    (∀ t vs, sizeOf t + sizeOf vs ≤ N → RT2 t vs) ∧
    (∀ fs vs, sizeOf fs + sizeOf vs ≤ N → RT3 fs vs) ∧
    (∀ alts tag v, sizeOf alts + sizeOf v ≤ N → RT4 alts tag v) := by
  intro N
  induction N with
  | zero =>
    refine ⟨?_, ?_, ?_, ?_⟩
    · intro t v hN; exfalso; cases t <;> simp at hN
    · intro t vs hN; exfalso; cases t <;> simp at hN
    · intro fs vs hN; exfalso; cases fs <;> simp at hN
    · intro alts tag v hN; exfalso; cases alts <;> simp at hN
  | succ N ih =>
    obtain ⟨ih1, ih2, ih3, ih4⟩ := ih
    refine ⟨?_, ?_, ?_, ?_⟩
    · -- RT1
      intro t v hN hw he
      cases t <;> cases v <;> try (solve | simp [wt] at hw)
      case wbool.vbool b =>
        refine ⟨[if b then 1 else 0], by simp [pack], by intro _; simp, ?_⟩
        intro r
        cases b <;> simp [unpack]
      case wuint.vnat k n =>
        simp only [wt, decide_eq_true_eq] at hw
        refine ⟨encLE k n, by simp [pack, hw], ?_, ?_⟩
        · intro hp hcon
          simp only [posSize, decide_eq_true_eq] at hp
          have hl := encLE_length k n
          rw [hcon] at hl
          simp at hl
          omega
        · intro r
          have h256 : n < 256 ^ k := by rw [pow256]; exact hw
          simp [unpack, decLE_encLE k n r h256]
      case wint.vint k i =>
        simp only [wt, decide_eq_true_eq] at hw
        obtain ⟨hk, hlo, hhi⟩ := hw
        refine ⟨encIntLE k i, by simp [pack]; omega, ?_, ?_⟩
        · intro hp hcon
          unfold encIntLE at hcon
          have hl := encLE_length k (i % (2 ^ (8 * k)) : Int).toNat
          rw [hcon] at hl
          simp at hl
          omega
        · intro r
          simp [unpack, decIntLE_encIntLE k i r hk hlo hhi]
      case wvaruint32.vnat n =>
        simp only [wt, decide_eq_true_eq] at hw
        have hw' : n < 4294967296 := by omega
        refine ⟨encULEB n, by simp [pack, hw'], by intro _; exact encULEB_ne_nil n, ?_⟩
        intro r
        simp [unpack, decULEB_encULEB n r, hw']
      case wvarint32.vint i =>
        simp only [wt, decide_eq_true_eq] at hw
        obtain ⟨hlo, hhi⟩ := hw
        have hz : zigzag i < 2 ^ 32 := zigzag_lt i 31 hlo hhi
        have hz' : zigzag i < 4294967296 := by omega
        refine ⟨encULEB (zigzag i), by simp [pack]; omega,
          by intro _; exact encULEB_ne_nil _, ?_⟩
        intro r
        simp [unpack, decULEB_encULEB (zigzag i) r, hz', unzigzag_zigzag]
      case wfloat32.vnat b =>
        simp only [wt, decide_eq_true_eq] at hw
        have hw' : b < 4294967296 := by omega
        refine ⟨encLE 4 b, by simp [pack, hw'], ?_, ?_⟩
        · intro _ hcon
          have hl := encLE_length 4 b
          rw [hcon] at hl
          simp at hl
        · intro r
          have h256 : b < 256 ^ 4 := by rw [pow256]; exact hw
          simp [unpack, decLE_encLE 4 b r h256]
      case wfloat64.vnat b =>
        simp only [wt, decide_eq_true_eq] at hw
        have hw' : b < 18446744073709551616 := by omega
        refine ⟨encLE 8 b, by simp [pack, hw'], ?_, ?_⟩
        · intro _ hcon
          have hl := encLE_length 8 b
          rw [hcon] at hl
          simp at hl
        · intro r
          have h256 : b < 256 ^ 8 := by rw [pow256]; exact hw
          simp [unpack, decLE_encLE 8 b r h256]
      case wbytes.vbytes bs =>
        simp only [wt, Bool.and_eq_true, decide_eq_true_eq] at hw
        have hw' : bs.length < 4294967296 := by omega
        refine ⟨encULEB bs.length ++ bs, by simp [pack, hw'], ?_, ?_⟩
        · intro _
          simp [encULEB_ne_nil]
        · intro r
          rw [List.append_assoc]
          simp only [unpack, decULEB_encULEB bs.length (bs ++ r)]
          rw [if_pos (by simp)]
          simp [List.take_left, List.drop_left]
      case wstring.vbytes bs =>
        simp only [wt, Bool.and_eq_true, decide_eq_true_eq] at hw
        have hw' : bs.length < 4294967296 := by omega
        refine ⟨encULEB bs.length ++ bs, by simp [pack, hw'], ?_, ?_⟩
        · intro _
          simp [encULEB_ne_nil]
        · intro r
          rw [List.append_assoc]
          simp only [unpack, decULEB_encULEB bs.length (bs ++ r)]
          rw [if_pos (by simp)]
          simp [List.take_left, List.drop_left]
      case wraw.vbytes n bs =>
        simp only [wt, Bool.and_eq_true, decide_eq_true_eq] at hw
        obtain ⟨hlen, _⟩ := hw
        subst hlen
        refine ⟨bs, by simp [pack], ?_, ?_⟩
        · intro hp hcon
          simp only [posSize, decide_eq_true_eq] at hp
          rw [hcon] at hp
          simp at hp
        · intro r
          simp only [unpack]
          rw [if_pos (by simp)]
          simp [List.take_left, List.drop_left]
      case warray.vlist t vs =>
        simp only [wt, Bool.and_eq_true, decide_eq_true_eq] at hw
        obtain ⟨hlen, hl⟩ := hw
        simp only [extOk] at he
        simp only [WType.warray.sizeOf_spec, WVal.vlist.sizeOf_spec] at hN
        have hlen' : vs.length < 4294967296 := by omega
        obtain ⟨body, hb, hu⟩ := ih2 t vs (by omega) hl he
        refine ⟨encULEB vs.length ++ body, by simp [pack, hlen', hb], ?_, ?_⟩
        · intro _
          simp [encULEB_ne_nil]
        · intro r
          rw [List.append_assoc]
          simp only [unpack, decULEB_encULEB vs.length (body ++ r)]
          rw [if_pos hlen, hu r]
      case woption.vnone t =>
        refine ⟨[0], by simp [pack], by intro _; simp, ?_⟩
        intro r
        simp [unpack]
      case woption.vsome t v =>
        simp only [wt] at hw
        simp only [extOk] at he
        simp only [WType.woption.sizeOf_spec, WVal.vsome.sizeOf_spec] at hN
        obtain ⟨body, hb, _, hu⟩ := ih1 t v (by omega) hw he
        refine ⟨1 :: body, by simp [pack, hb], by intro _; simp, ?_⟩
        intro r
        simp [unpack, hu r]
      case wstruct.vstruct fs vs =>
        simp only [wt] at hw
        simp only [extOk] at he
        simp only [WType.wstruct.sizeOf_spec, WVal.vstruct.sizeOf_spec] at hN
        obtain ⟨body, hb, hne, hu⟩ := ih3 fs vs (by omega) hw he
        refine ⟨body, by simp [pack, hb], ?_, ?_⟩
        · intro hp
          simp only [posSize] at hp
          exact hne hp
        · intro r
          simp [unpack, hu r]
      case wvariant.vvariant alts tag v =>
        simp only [wt] at hw
        simp only [extOk] at he
        simp only [WType.wvariant.sizeOf_spec, WVal.vvariant.sizeOf_spec] at hN
        obtain ⟨htag, body, hb, hu⟩ := ih4 alts tag v (by omega) hw he
        refine ⟨encULEB tag ++ body, by simp [pack, htag, hb], ?_, ?_⟩
        · intro _
          simp [encULEB_ne_nil]
        · intro r
          rw [List.append_assoc]
          simp only [unpack, decULEB_encULEB tag (body ++ r)]
          rw [if_pos htag, hu r]
    · -- RT2
      intro t vs hN hw he
      cases vs with
      | nil =>
        refine ⟨[], by simp [packList], ?_⟩
        intro r
        simp [unpackList]
      | cons v vs =>
        simp only [wtList, Bool.and_eq_true] at hw
        obtain ⟨hw1, hw2⟩ := hw
        simp only [List.cons.sizeOf_spec] at hN
        obtain ⟨b1, hb1, _, hu1⟩ := ih1 t v (by omega) hw1 he
        obtain ⟨b2, hb2, hu2⟩ := ih2 t vs (by omega) hw2 he
        refine ⟨b1 ++ b2, by simp [packList, hb1, hb2], ?_⟩
        intro r
        simp only [List.length_cons, unpackList, List.append_assoc, hu1 (b2 ++ r), hu2 r]
    · -- RT3
      intro fs vs hN hw he
      cases fs with
      | nil =>
        cases vs with
        | nil =>
          refine ⟨[], by simp [packFields], by intro hp; simp [posFields] at hp, ?_⟩
          intro r
          simp [unpackFields]
        | cons v vs => simp [wtFields] at hw
      | cons f fs =>
        obtain ⟨t, ext⟩ := f
        cases vs with
        | nil => simp [wtFields] at hw
        | cons v vs =>
          simp only [wtFields, Bool.and_eq_true, Bool.or_eq_true, Bool.not_eq_true'] at hw
          obtain ⟨⟨hpres, hwv⟩, hwr⟩ := hw
          simp only [extOkFields, Bool.and_eq_true, Bool.or_eq_true, Bool.not_eq_true'] at he
          obtain ⟨⟨hext, het⟩, her⟩ := he
          simp only [List.cons.sizeOf_spec, Prod.mk.sizeOf_spec] at hN
          obtain ⟨b1, hb1, hne1, hu1⟩ := ih1 t v (by omega) hwv het
          obtain ⟨b2, hb2, hne2, hu2⟩ := ih3 fs vs (by omega) hwr her
          have hnotstop : (ext && v.isNone) = false := by
            cases hpres with
            | inl h => simp [h]
            | inr h => simp [h]
          refine ⟨b1 ++ b2, ?_, ?_, ?_⟩
          · simp only [packFields, hnotstop, Bool.false_eq_true, if_false, hb1, hb2]
          · intro hp hcon
            simp only [posFields, Bool.or_eq_true] at hp
            rcases List.append_eq_nil.mp hcon with ⟨hc1, hc2⟩
            cases hp with
            | inl h => exact hne1 h hc1
            | inr h => exact hne2 h hc2
          · intro r
            have hcond : (ext && (b1 ++ (b2 ++ r)).isEmpty) = false := by
              cases hext with
              | inl h => rw [h, Bool.false_and]
              | inr h =>
                have hb1 : b1 ≠ [] := hne1 h
                cases b1 with
                | nil => exact absurd rfl hb1
                | cons a as => simp
            simp only [unpackFields, List.append_assoc, hcond, Bool.false_eq_true, if_false,
              hu1 (b2 ++ r), hu2 r]
    · -- RT4
      intro alts tag v hN hw he
      cases alts with
      | nil => simp [wtAlt] at hw
      | cons t ts =>
        simp only [extOkAlts, Bool.and_eq_true] at he
        obtain ⟨het, her⟩ := he
        cases tag with
        | zero =>
          simp only [wtAlt] at hw
          simp only [List.cons.sizeOf_spec] at hN
          obtain ⟨b, hb, _, hu⟩ := ih1 t v (by omega) hw het
          exact ⟨by simp, b, by simp [packAlt, hb], fun r => by simp [unpackAlt, hu r]⟩
        | succ n =>
          simp only [wtAlt] at hw
          simp only [List.cons.sizeOf_spec] at hN
          obtain ⟨htag, b, hb, hu⟩ := ih4 ts n v (by omega) hw her
          exact ⟨by simp only [List.length_cons]; omega, b, by simp [packAlt, hb],
            fun r => by simp [unpackAlt, hu r]⟩

/-- Round trip for a single value, as a standalone theorem. -/
theorem rt1 (t : WType) (v : WVal) : RT1 t v :=
  (rtStrong (sizeOf t + sizeOf v)).1 t v le_rfl

/-- Round trip for struct fields with all extension fields present. -/
theorem rt3 (fs : List (WType × Bool)) (vs : List WVal) : RT3 fs vs :=
  (rtStrong (sizeOf fs + sizeOf vs)).2.2.1 fs vs le_rfl

/-- Round trip for a variant alternative. -/
theorem rt4 (alts : List WType) (tag : Nat) (v : WVal) : RT4 alts tag v :=
  (rtStrong (sizeOf alts + sizeOf v)).2.2.2 alts tag v le_rfl

/-- A run of extension fields with all-absent values satisfies the
pack-side stop check. -/
theorem allExtNone_replicate (fs : List (WType × Bool))
    (h : fs.all (fun f => f.2) = true) :
    allExtNone fs (List.replicate fs.length vnone) = true := by
  induction fs with
  | nil => rfl
  | cons f fs ih =>
    obtain ⟨t, ext⟩ := f
    simp only [List.all_cons, Bool.and_eq_true] at h
    simp only [List.length_cons, List.replicate_succ, allExtNone, h.1, WVal.isNone,
      Bool.and_true, Bool.true_and, ih h.2]

/-- Unpacking an all-extension field run from an exhausted buffer yields
all-absent values (spec §4.D Extension, unpack side). -/
theorem unpackFields_nil_of_allExt (fs : List (WType × Bool))
    (h : fs.all (fun f => f.2) = true) :
    unpackFields fs [] = some (List.replicate fs.length vnone, []) := by
  induction fs with
  | nil => simp [unpackFields]
  | cons f fs ih =>
    obtain ⟨t, ext⟩ := f
    simp only [List.all_cons, Bool.and_eq_true] at h
    rw [h.1] at *
    simp only [unpackFields, List.isEmpty_nil, Bool.and_true, if_pos rfl, ih h.2,
      List.length_cons, List.replicate_succ]
    simp

/-- Top-level struct-field round trip: fields split into a prefix `fs1`
whose values are all present, followed by an all-extension run `fs2` whose
values are all absent.  Packing stops at the absent run; unpacking the
resulting bytes (with nothing following them) restores the absent run. -/
theorem rtFieldsTop (fs1 fs2 : List (WType × Bool)) (vs1 : List WVal)
    (hw : wtFields fs1 vs1 = true) (he : extOkFields fs1 = true)
    (hext2 : fs2.all (fun f => f.2) = true) :
    ∃ bs, packFields (fs1 ++ fs2) (vs1 ++ List.replicate fs2.length vnone) = some bs ∧
      unpackFields (fs1 ++ fs2) bs =
        some (vs1 ++ List.replicate fs2.length vnone, []) := by
  induction fs1 generalizing vs1 with
  | nil =>
    cases vs1 with
    | cons v vs => simp [wtFields] at hw
    | nil =>
      simp only [List.nil_append]
      cases fs2 with
      | nil => exact ⟨[], by simp [packFields], by simp [unpackFields]⟩
      | cons f fs =>
        obtain ⟨t, ext⟩ := f
        simp only [List.all_cons, Bool.and_eq_true] at hext2
        refine ⟨[], ?_, ?_⟩
        · simp only [List.length_cons, List.replicate_succ, packFields, hext2.1,
            WVal.isNone, Bool.and_true, Bool.true_and, if_pos rfl,
            allExtNone_replicate fs hext2.2, if_true]
        · rw [hext2.1] at *
          simp only [unpackFields, List.isEmpty_nil, Bool.and_true, if_pos rfl,
            unpackFields_nil_of_allExt fs hext2.2, List.length_cons,
            List.replicate_succ]
          simp
  | cons f fs1 ih =>
    obtain ⟨t, ext⟩ := f
    cases vs1 with
    | nil => simp [wtFields] at hw
    | cons v vs =>
      simp only [wtFields, Bool.and_eq_true, Bool.or_eq_true, Bool.not_eq_true'] at hw
      obtain ⟨⟨hpres, hwv⟩, hwr⟩ := hw
      simp only [extOkFields, Bool.and_eq_true, Bool.or_eq_true, Bool.not_eq_true'] at he
      obtain ⟨⟨hext, het⟩, her⟩ := he
      obtain ⟨b1, hb1, hne1, hu1⟩ := rt1 t v hwv het
      obtain ⟨b2, hb2, hu2⟩ := ih vs hwr her
      have hnotstop : (ext && v.isNone) = false := by
        cases hpres with
        | inl h => simp [h]
        | inr h => simp [h]
      refine ⟨b1 ++ b2, ?_, ?_⟩
      · simp only [List.cons_append, packFields, hnotstop, Bool.false_eq_true, if_false,
          hb1, hb2]
      · have hcond : (ext && (b1 ++ b2).isEmpty) = false := by
          cases hext with
          | inl h => rw [h, Bool.false_and]
          | inr h =>
            have hb1ne : b1 ≠ [] := hne1 h
            cases b1 with
            | nil => exact absurd rfl hb1ne
            | cons a as => simp
        simp only [List.cons_append, unpackFields, hcond, Bool.false_eq_true, if_false,
          hu1 b2, hu2]

/-- **Claim C1** (round-trip law, spec §8).  For every named struct type —
fields split as a fully-present prefix and a trailing all-extension absent
run — and for every variant type with a well-typed selected alternative,
packing the value and unpacking the resulting bytes restores the value
exactly (hence also up to the spec's looser equivalence).  The side
conditions `extOkFields`/`extOkAlts` require every extension-flagged field
type to occupy at least one byte, so that absence is observable; `wtFields`/
`wtAlt` are the typing and numeric-range conditions that the type-directed
generator establishes. -/
theorem c1_pack_unpack_roundtrip
    (fs1 fs2 : List (WType × Bool)) (vs1 : List WVal)
    (alts : List WType) (tag : Nat) (v : WVal)
    (hw : wtFields fs1 vs1 = true) (he : extOkFields fs1 = true)
    (hext2 : fs2.all (fun f => f.2) = true)
    (hwv : wtAlt alts tag v = true) (hev : extOkAlts alts = true) :
    (∃ bs, pack (wstruct (fs1 ++ fs2)) (vstruct (vs1 ++ List.replicate fs2.length vnone))
        = some bs ∧
      unpack (wstruct (fs1 ++ fs2)) bs
        = some (vstruct (vs1 ++ List.replicate fs2.length vnone), [])) ∧
    (∃ bs, pack (wvariant alts) (vvariant tag v) = some bs ∧
      unpack (wvariant alts) bs = some (vvariant tag v, [])) := by
  constructor
  · obtain ⟨bs, hp, hu⟩ := rtFieldsTop fs1 fs2 vs1 hw he hext2
    refine ⟨bs, by simp [pack, hp], ?_⟩
    simp [unpack, hu]
  · obtain ⟨htag, bs, hp, hu⟩ := rt4 alts tag v hwv hev
    have hu0 := hu []
    rw [List.append_nil] at hu0
    refine ⟨encULEB tag ++ bs, by simp [pack, htag, hp], ?_⟩
    rw [show unpack (wvariant alts) (encULEB tag ++ bs)
        = match decULEB (encULEB tag ++ bs) with
          | some (tag2, rest) =>
            if tag2 < alts.length then
              match unpackAlt alts tag2 rest with
              | some (v2, rest2) => some (vvariant tag2 v2, rest2)
              | none => none
            else none
          | none => none
      from by simp [unpack]]
    rw [show decULEB (encULEB tag ++ bs) = some (tag, bs) from by
      have := decULEB_encULEB tag bs
      simpa using this]
    simp only [if_pos htag, hu0]

/-- Witness for C1: the struct `{a : uint32, b : varuint32$}` with `a = 5`
and `b` absent, and the variant `{string, uint32}` carrying `42` in its
`uint32` alternative, both round-trip. -/
theorem c1_pack_unpack_roundtrip_witness :
    wtFields [(wuint 4, false)] [vnat 5] = true ∧
    extOkFields [(wuint 4, false)] = true ∧
    ([(wvaruint32, true)] : List (WType × Bool)).all (fun f => f.2) = true ∧
    wtAlt [wstring, wuint 4] 1 (vnat 42) = true ∧
    extOkAlts [wstring, wuint 4] = true ∧
    ((∃ bs, pack (wstruct ([(wuint 4, false)] ++ [(wvaruint32, true)]))
        (vstruct ([vnat 5] ++ List.replicate ([(wvaruint32, true)] :
            List (WType × Bool)).length vnone)) = some bs ∧
      unpack (wstruct ([(wuint 4, false)] ++ [(wvaruint32, true)])) bs
        = some (vstruct ([vnat 5] ++ List.replicate ([(wvaruint32, true)] :
            List (WType × Bool)).length vnone), [])) ∧
    (∃ bs, pack (wvariant [wstring, wuint 4]) (vvariant 1 (vnat 42)) = some bs ∧
      unpack (wvariant [wstring, wuint 4]) bs = some (vvariant 1 (vnat 42), []))) := by
  have h1 : wtFields [(wuint 4, false)] [vnat 5] = true := by
    simp [wtFields, wt, WVal.isNone]
  have h2 : extOkFields [(wuint 4, false)] = true := by
    simp [extOkFields, extOk]
  have h3 : ([(wvaruint32, true)] : List (WType × Bool)).all (fun f => f.2) = true := by
    simp
  have h4 : wtAlt [wstring, wuint 4] 1 (vnat 42) = true := by
    simp [wtAlt, wt]
  have h5 : extOkAlts [wstring, wuint 4] = true := by
    simp [extOkAlts, extOk]
  exact ⟨h1, h2, h3, h4, h5,
    c1_pack_unpack_roundtrip [(wuint 4, false)] [(wvaruint32, true)] [vnat 5]
      [wstring, wuint 4] 1 (vnat 42) h1 h2 h3 h4 h5⟩

/-! ## The ABI model and type resolver (`src/jitabi/protocol.py`)

Python strings are `List Char` (`Str`).  `split_type_modifiers` peels
modifier tokens off the right end of the string; we model the string
reversed, so that the peeling loop is structural recursion on the char
list, and convert at the `splitTypeModifiers` wrapper. -/

abbrev Str := List Char

/-- String literal helper. -/
def str (s : String) : Str := s.toList

/-- `protocol.py: TypeModifier`. -/
inductive TypeModifier where
  | NONE : TypeModifier
  | ARRAY : TypeModifier
  | OPTIONAL : TypeModifier
  | EXTENSION : TypeModifier
  deriving Repr, DecidableEq

/-- The Python exceptions raised by the modelled `protocol.py` code paths. -/
inductive PyErr where
  | indexError : PyErr        -- `name[-1]` on an empty string
  | fixedSizeArray : PyErr    -- TypeError: fixed-size arrays not supported
  | circularAlias : PyErr     -- TypeError: circular alias detected
  | invalidType : PyErr       -- TypeError: not a valid type
  | extractParams : PyErr     -- TypeError from extract_type_params
  | invalidIdent : PyErr      -- ValueError from sanitize.check_ident
  | unknownStdType : PyErr    -- TypeError: unknown std type (cpython.py)
  deriving Repr, DecidableEq

/-- `split_type_modifiers`' fixed-size-array test, on the reversed
remainder: Python computes `lb = name.rfind('[')` and raises when
`lb != -1 and name[lb+1:-1].isdigit()`; on the reversed string the
segment between the last `[` and the final `]` is
`rest.takeWhile (· ≠ '[')`. -/
def fixedArrayCheckRev : Str → Bool
  | ']' :: rest =>
    decide ('[' ∈ rest) &&
      decide (rest.takeWhile (fun c => c ≠ '[') ≠ []) &&
      (rest.takeWhile (fun c => c ≠ '[')).all Char.isDigit
  | _ => false

/-- Pure modifier peeling on the reversed string: strips trailing `[]`,
`?`, `$` tokens.  The remainder is what `split_type_modifiers`' loop is
left with when it stops (possibly empty). -/
def peelRev : Str → Str
  | ']' :: '[' :: rest => peelRev rest
  | '?' :: rest => peelRev rest
  | '$' :: rest => peelRev rest
  | s => s

/-- The loop of `split_type_modifiers`, on the reversed string.  Each
iteration peels one trailing token, recording modifiers outer-most first;
an empty remainder raises `IndexError` from `name[-1]`; a remainder ending
in `]` with a nonempty digit run after the last `[` raises the
fixed-size-array `TypeError`. -/
def splitRev : Str → List TypeModifier → Except PyErr (Str × List TypeModifier)
  | ']' :: '[' :: rest, mods => splitRev rest (mods ++ [TypeModifier.ARRAY])
  | '?' :: rest, mods => splitRev rest (mods ++ [TypeModifier.OPTIONAL])
  | '$' :: rest, mods => splitRev rest (mods ++ [TypeModifier.EXTENSION])
  | [], _ => .error .indexError
  | last :: rest, mods =>
    if last = ']' then
      if fixedArrayCheckRev (last :: rest) then .error .fixedSizeArray
      else .ok (last :: rest, mods)
    else .ok (last :: rest, mods)

/-- `protocol.py: split_type_modifiers` — peel every recognised trailing
modifier, outer-most first. -/
def splitTypeModifiers (name : Str) : Except PyErr (Str × List TypeModifier) :=
  (splitRev name.reverse []).map fun p => (p.1.reverse, p.2)

/-- `protocol.py: STD_TYPES`. -/
def STD_TYPES : List Str :=
  [str "bool",
   str "uint8", str "uint16", str "uint32", str "uint64", str "uint128",
   str "int8", str "int16", str "int32", str "int64", str "int128",
   str "varuint32", str "varint32",
   str "float32", str "float64",
   str "bytes", str "string"]

/-- `protocol.py: is_std_type`. -/
def is_std_type (name : Str) : Bool := decide (name ∈ STD_TYPES)

/-- `utils.py: is_raw_type` — `name == 'raw'` or the regex
`^raw\(\d+\)$`. -/
def is_raw_type (name : Str) : Bool :=
  decide (name = str "raw") ||
    (match name with
     | 'r' :: 'a' :: 'w' :: '(' :: rest =>
       decide (rest.getLast? = some ')') &&
         decide (rest.dropLast ≠ []) && rest.dropLast.all Char.isDigit
     | _ => false)

/-- Python `str.find`: first index or `-1`. -/
def pyFind (s : Str) (c : Char) : Int :=
  match s.findIdx? (fun x => x = c) with
  | some j => (j : Int)
  | none => -1

/-- Python `str.rfind`: last index or `-1`. -/
def pyRFind (s : Str) (c : Char) : Int :=
  match s.reverse.findIdx? (fun x => x = c) with
  | some j => (s.length : Int) - 1 - j
  | none => -1

/-- `protocol.py: extract_type_params` — slice between the first `(` and
the last `)`, drop spaces, split on commas; raising `TypeError` when the
slice is empty or backwards. -/
def extract_type_params (s : Str) : Except PyErr (List Str) :=
  let ps : Int := pyFind s '(' + 1
  let pe : Int := pyRFind s ')'
  if pe ≤ ps then .error .extractParams
  else .ok ((((s.drop ps.toNat).take (pe - ps).toNat).filter
      (fun c => c ≠ ' ')).splitOn ',')

/-! ### Python dicts as association lists

`dinsert` is `d[k] = v` (overwrite), `dictOf` builds a dict from a list of
pairs (later duplicates overwrite earlier ones, as in a Python dict
comprehension), `dupdate` is `d.update(adds)`. -/

def dinsert {α : Type} : List (Str × α) → Str → α → List (Str × α)
  | [], k, v => [(k, v)]
  | (k', v') :: rest, k, v =>
    if k' = k then (k, v) :: rest else (k', v') :: dinsert rest k v

def dlookup {α : Type} : List (Str × α) → Str → Option α
  | [], _ => none
  | (k', v') :: rest, k => if k' = k then some v' else dlookup rest k

def dupdate {α : Type} (m : List (Str × α)) (adds : List (Str × α)) : List (Str × α) :=
  adds.foldl (fun acc kv => dinsert acc kv.1 kv.2) m

def dictOf {α : Type} (entries : List (Str × α)) : List (Str × α) :=
  dupdate [] entries

/-- Membership of a key. -/
def dcontains {α : Type} (m : List (Str × α)) (k : Str) : Bool :=
  (dlookup m k).isSome

theorem dupdate_nil {α : Type} (m : List (Str × α)) : dupdate m [] = m := rfl

theorem dupdate_cons {α : Type} (m : List (Str × α)) (kv : Str × α)
    (adds : List (Str × α)) :
    dupdate m (kv :: adds) = dupdate (dinsert m kv.1 kv.2) adds := rfl

theorem dictOf_eq_dupdate {α : Type} (l : List (Str × α)) : dictOf l = dupdate [] l := rfl

theorem dlookup_dinsert_self {α : Type} (m : List (Str × α)) (k : Str) (v : α) :
    dlookup (dinsert m k v) k = some v := by
  induction m with
  | nil => simp [dinsert, dlookup]
  | cons kv rest ih =>
    obtain ⟨k', v'⟩ := kv
    by_cases h : k' = k
    · subst h
      simp [dinsert, dlookup]
    · simp [dinsert, dlookup, h, ih]

theorem dlookup_dinsert_ne {α : Type} (m : List (Str × α)) (k k' : Str) (v : α)
    (h : k' ≠ k) : dlookup (dinsert m k v) k' = dlookup m k' := by
  induction m with
  | nil => simp [dinsert, dlookup, Ne.symm h]
  | cons kv rest ih =>
    obtain ⟨k0, v0⟩ := kv
    by_cases h0 : k0 = k
    · subst h0
      simp [dinsert, dlookup, Ne.symm h]
    · simp [dinsert, dlookup, h0, ih]

/-- Keys not among the added keys keep their old binding under
`dupdate`. -/
theorem dlookup_dupdate_not_mem {α : Type} (adds : List (Str × α))
    (m : List (Str × α)) (k : Str) (h : ¬ k ∈ adds.map Prod.fst) :
    dlookup (dupdate m adds) k = dlookup m k := by
  induction adds generalizing m with
  | nil => rfl
  | cons kv adds ih =>
    obtain ⟨k0, v0⟩ := kv
    simp only [List.map_cons, List.mem_cons] at h
    push_neg at h
    simp only [dupdate, List.foldl_cons]
    rw [show (adds.foldl (fun acc kv => dinsert acc kv.1 kv.2) (dinsert m k0 v0))
        = dupdate (dinsert m k0 v0) adds from rfl]
    rw [ih (dinsert m k0 v0) h.2, dlookup_dinsert_ne _ _ _ _ h.1]

attribute [irreducible] dupdate

/-! ### ABI records and the resolved view (`protocol.py`) -/

/-- `protocol.py: FieldDef`. -/
structure FieldDefM where
  name : Str
  type_ : Str
  deriving Repr, DecidableEq

/-- `protocol.py: StructDef`. -/
structure StructDefM where
  name : Str
  fields : List FieldDefM
  base : Option Str := none
  deriving Repr, DecidableEq

/-- `protocol.py: VariantDef`. -/
structure VariantDefM where
  name : Str
  types : List Str
  deriving Repr, DecidableEq

/-- `protocol.py: AliasDef` (`types` entries). -/
structure AliasDefM where
  new_type_name : Str
  type_ : Str
  deriving Repr, DecidableEq

/-- `protocol.py: ABIDef` — the fields the resolver and the content hash
read (`types`, `structs`, `variants`) plus `version`; `actions`/`tables`
carry no typing content and are kept as opaque name lists. -/
structure ABIDefM where
  version : Str
  types : List AliasDefM
  structs : List StructDefM
  variants : List VariantDefM
  actions : List Str := []
  tables : List Str := []
  deriving Repr, DecidableEq

/-- `protocol.py: BUILTIN_ALIASES` — always injected. -/
def BUILTIN_ALIASES : List (Str × Str) :=
  [(str "float128", str "raw(16)"),
   (str "name", str "uint64"),
   (str "account_name", str "uint64"),
   (str "symbol", str "uint64"),
   (str "symbol_code", str "uint64"),
   (str "rd160", str "raw(20)"),
   (str "checksum160", str "raw(20)"),
   (str "sha256", str "raw(32)"),
   (str "checksum256", str "raw(32)"),
   (str "checksum512", str "raw(64)"),
   (str "time_point", str "uint64"),
   (str "time_point_sec", str "uint32"),
   (str "block_timestamp_type", str "uint32"),
   (str "public_key", str "raw(34)"),
   (str "signature", str "raw(66)")]

/-- `protocol.py: BUILTIN_STRUCTS` — always injected. -/
def BUILTIN_STRUCTS : List (Str × StructDefM) :=
  [(str "asset",
    { name := str "asset",
      fields := [⟨str "amount", str "int64"⟩, ⟨str "symbol", str "symbol"⟩] }),
   (str "extended_asset",
    { name := str "extended_asset",
      fields := [⟨str "quantity", str "asset"⟩, ⟨str "contract", str "name"⟩] })]

/-- `protocol.py: ABIView.__init__` — builds the alias/struct/variant maps
from the definition, then overlays the built-ins with `dict.update`
(so a built-in wins any name collision), and collects the valid names. -/
structure ABIViewM where
  alias_map : List (Str × Str)
  struct_map : List (Str × StructDefM)
  variant_map : List (Str × VariantDefM)
  valid_types : List Str
  deriving Repr

def ABIViewM.ofDef (d : ABIDefM) : ABIViewM where
  alias_map :=
    dupdate (dictOf (d.types.map fun a => (a.new_type_name, a.type_))) BUILTIN_ALIASES
  struct_map :=
    dupdate (dictOf (d.structs.map fun s => (s.name, s))) BUILTIN_STRUCTS
  variant_map := dictOf (d.variants.map fun e => (e.name, e))
  valid_types :=
    STD_TYPES ++
      (dupdate (dictOf (d.structs.map fun s => (s.name, s))) BUILTIN_STRUCTS).map
        Prod.fst ++
      (dictOf (d.variants.map fun e => (e.name, e))).map Prod.fst ++
      (dupdate (dictOf (d.types.map fun a => (a.new_type_name, a.type_)))
        BUILTIN_ALIASES).map Prod.fst

theorem ofDef_alias_map (d : ABIDefM) :
    (ABIViewM.ofDef d).alias_map
      = dupdate (dictOf (d.types.map fun a => (a.new_type_name, a.type_)))
          BUILTIN_ALIASES := rfl

theorem ofDef_struct_map (d : ABIDefM) :
    (ABIViewM.ofDef d).struct_map
      = dupdate (dictOf (d.structs.map fun s => (s.name, s))) BUILTIN_STRUCTS := rfl

theorem ofDef_valid_types_std (d : ABIDefM) (t : Str) (h : t ∈ STD_TYPES) :
    t ∈ (ABIViewM.ofDef d).valid_types := by
  show t ∈ STD_TYPES ++ _ ++ _ ++ _
  exact List.mem_append_left _ (List.mem_append_left _ (List.mem_append_left _ h))

/-- `ABIView.is_valid_type`. -/
def ABIViewM.is_valid_type (v : ABIViewM) (name : Str) : Bool :=
  decide (name ∈ v.valid_types) || is_raw_type name

/-- `ABIView.resolve_alias`. -/
def ABIViewM.resolve_alias (v : ABIViewM) (name : Str) : Str :=
  (dlookup v.alias_map name).getD name

/-- `protocol.py: ABIResolvedType`. -/
structure ABIResolvedTypeM where
  original_name : Str
  resolved_name : Str
  args : List Str
  is_std : Bool
  is_alias : Bool
  is_struct : Bool
  is_variant : Bool
  modifiers : List TypeModifier
  deriving Repr, DecidableEq

/-- Number of alias-map keys not yet visited: the variant of the
alias-following loop. -/
def remainingKeys (amap : List (Str × Str)) (visited : List Str) : Nat :=
  ((amap.map Prod.fst).filter (fun k => !(decide (k ∈ visited)))).length

theorem filter_length_le_of_imp {α : Type} (l : List α) (p q : α → Bool)
    (h : ∀ a, p a = true → q a = true) :
    (l.filter p).length ≤ (l.filter q).length := by
  induction l with
  | nil => simp
  | cons a l ih =>
    simp only [List.filter_cons]
    by_cases hp : p a = true
    · rw [if_pos hp, if_pos (h a hp)]
      simpa using ih
    · rw [if_neg hp]
      by_cases hq : q a = true
      · rw [if_pos hq]
        simp only [List.length_cons]
        omega
      · rw [if_neg hq]
        exact ih

theorem filter_not_mem_cons_lt (l : List Str) (visited : List Str) (k : Str)
    (hk : k ∈ l) (hnv : ¬ k ∈ visited) :
    (l.filter (fun x => !(decide (x ∈ k :: visited)))).length <
      (l.filter (fun x => !(decide (x ∈ visited)))).length := by
  induction l with
  | nil => simp at hk
  | cons a l ih =>
    simp only [List.filter_cons]
    by_cases hak : a = k
    · subst hak
      rw [if_neg (by simp), if_pos (by simp [hnv])]
      have hle := filter_length_le_of_imp l
        (fun x => !(decide (x ∈ a :: visited))) (fun x => !(decide (x ∈ visited)))
        (by
          intro x hx
          simp only [Bool.not_eq_true', decide_eq_false_iff_not, List.mem_cons] at hx ⊢
          tauto)
      simp only [List.length_cons]
      omega
    · have hkl : k ∈ l := by
        rcases List.mem_cons.mp hk with h | h
        · exact absurd h.symm hak
        · exact h
      have hstep := ih hkl
      by_cases h3 : a ∈ visited
      · rw [if_neg (by simp [List.mem_cons_of_mem _ h3]), if_neg (by simp [h3])]
        exact hstep
      · have h2 : ¬ a ∈ k :: visited := by simp [hak, h3]
        rw [if_pos (by simp [h2]), if_pos (by simp [h3])]
        simp only [List.length_cons]
        omega

theorem remainingKeys_lt (amap : List (Str × Str)) (visited : List Str) (k : Str)
    (hk : k ∈ amap.map Prod.fst) (hnv : ¬ k ∈ visited) :
    remainingKeys amap (k :: visited) < remainingKeys amap visited :=
  filter_not_mem_cons_lt (amap.map Prod.fst) visited k hk hnv

theorem dlookup_isSome_mem {α : Type} (amap : List (Str × α)) (k : Str)
    (h : (dlookup amap k).isSome = true) : k ∈ amap.map Prod.fst := by
  induction amap with
  | nil => simp [dlookup] at h
  | cons kv rest ih =>
    obtain ⟨k0, v0⟩ := kv
    by_cases h0 : k0 = k
    · subst h0
      simp only [List.map_cons, List.mem_cons]
      left
      trivial
    · simp only [dlookup, h0, if_false] at h
      simp only [List.map_cons, List.mem_cons]
      right
      exact ih h

/-- The alias-following loop of `ABIView.resolve_type`: while the base is a
key of the alias map (with a truthy target), fail on a revisit, otherwise
peel the target's modifiers (appending them inner-most) and continue. -/
def aliasLoop (amap : List (Str × Str)) (base : Str) (mods : List TypeModifier)
    (visited : List Str) (isAlias : Bool) :
    Except PyErr (Str × List TypeModifier × Bool) :=
  match hl : dlookup amap base with
  | none => .ok (base, mods, isAlias)
  | some target =>
    if target = [] then .ok (base, mods, isAlias)
    else if hv : base ∈ visited then .error .circularAlias
    else
      match splitTypeModifiers target with
      | .error e => .error e
      | .ok (tbase, tmods) =>
        aliasLoop amap tbase (mods ++ tmods) (base :: visited) true
termination_by remainingKeys amap visited
decreasing_by
  exact remainingKeys_lt amap visited base
    (dlookup_isSome_mem amap base (by rw [hl]; rfl)) hv

/-- `protocol.py: ABIView.resolve_type`. -/
def ABIViewM.resolve_type (v : ABIViewM) (name : Str) :
    Except PyErr ABIResolvedTypeM :=
  match splitTypeModifiers name with
  | .error e => .error e
  | .ok (base, mods) =>
    match aliasLoop v.alias_map base mods [] false with
    | .error e => .error e
    | .ok (base2, mods2, isAlias) =>
      if !(v.is_valid_type base2) then .error .invalidType
      else
        let base3 := v.resolve_alias base2
        if is_raw_type base3 then
          match extract_type_params base3 with
          | .error e => .error e
          | .ok args =>
            .ok { original_name := name, resolved_name := str "raw", args := args,
                  is_std := is_std_type (str "raw"), is_alias := isAlias,
                  is_struct := dcontains v.struct_map (str "raw"),
                  is_variant := dcontains v.variant_map (str "raw"),
                  modifiers := mods2 }
        else
          .ok { original_name := name, resolved_name := base3, args := [],
                is_std := is_std_type base3, is_alias := isAlias,
                is_struct := dcontains v.struct_map base3,
                is_variant := dcontains v.variant_map base3,
                modifiers := mods2 }

/-! ### Behaviour of the peeling loop (claims C7 and C9) -/

/-- When the head of the reversed string is not part of a modifier token,
peeling leaves the string unchanged. -/
theorem peelRev_fix (last : Char) (rest : List Char)
    (h1 : ∀ r, last = ']' → rest = '[' :: r → False)
    (h2 : last = '?' → False) (h3 : last = '$' → False) :
    peelRev (last :: rest) = last :: rest := by
  rw [peelRev.eq_def]
  split
  · next r heq =>
    rw [List.cons.injEq] at heq
    exact absurd heq (by intro ⟨x, y⟩; exact h1 r x y)
  · next heq =>
    rw [List.cons.injEq] at heq
    exact absurd heq.1 h2
  · next heq =>
    rw [List.cons.injEq] at heq
    exact absurd heq.1 h3
  · rfl

/-- The loop's behaviour once no modifier token matches, as a single
equation. -/
theorem splitRev_fixpoint (last : Char) (rest : List Char) (mods : List TypeModifier)
    (h1 : ∀ r, last = ']' → rest = '[' :: r → False)
    (h2 : last = '?' → False) (h3 : last = '$' → False) :
    splitRev (last :: rest) mods =
      if last = ']' then
        if fixedArrayCheckRev (last :: rest) then .error .fixedSizeArray
        else .ok (last :: rest, mods)
      else .ok (last :: rest, mods) := by
  rw [splitRev.eq_def]
  split
  · next r heq =>
    rw [List.cons.injEq] at heq
    exact absurd heq (by intro ⟨x, y⟩; exact h1 r x y)
  · next heq =>
    rw [List.cons.injEq] at heq
    exact absurd heq.1 h2
  · next heq =>
    rw [List.cons.injEq] at heq
    exact absurd heq.1 h3
  · next heq =>
    exact absurd heq (by simp)
  · next l2 r2 _ _ _ heq =>
    rw [List.cons.injEq] at heq
    rw [← heq.1, ← heq.2]

/-- The fixed-size-array check only fires on strings ending in `]`. -/
theorem fixedArrayCheckRev_ne (last : Char) (rest : List Char) (h : ¬ last = ']') :
    fixedArrayCheckRev (last :: rest) = false := by
  rw [fixedArrayCheckRev.eq_def]
  split
  · next heq =>
    rw [List.cons.injEq] at heq
    exact absurd heq.1 h
  · rfl

/-- If the peeled remainder is empty, the loop raises `IndexError`. -/
theorem splitRev_indexError (s : Str) (mods : List TypeModifier)
    (h : peelRev s = []) : splitRev s mods = .error .indexError := by
  induction s, mods using splitRev.induct with
  | case1 rest mods ih =>
    rw [show peelRev (']' :: '[' :: rest) = peelRev rest from by rw [peelRev]] at h
    rw [show splitRev (']' :: '[' :: rest) mods
        = splitRev rest (mods ++ [TypeModifier.ARRAY]) from by rw [splitRev]]
    exact ih h
  | case2 rest mods ih =>
    rw [show peelRev ('?' :: rest) = peelRev rest from by rw [peelRev]] at h
    rw [show splitRev ('?' :: rest) mods
        = splitRev rest (mods ++ [TypeModifier.OPTIONAL]) from by rw [splitRev]]
    exact ih h
  | case3 rest mods ih =>
    rw [show peelRev ('$' :: rest) = peelRev rest from by rw [peelRev]] at h
    rw [show splitRev ('$' :: rest) mods
        = splitRev rest (mods ++ [TypeModifier.EXTENSION]) from by rw [splitRev]]
    exact ih h
  | case4 mods => rw [splitRev]
  | case5 rest mods h1 h2 h3 hf =>
    rw [peelRev_fix _ _ h1 h2 h3] at h
    cases h
  | case6 rest mods h1 h2 h3 hf =>
    rw [peelRev_fix _ _ h1 h2 h3] at h
    cases h
  | case7 last rest mods h1 h2 h3 hne =>
    rw [peelRev_fix _ _ h1 h2 h3] at h
    cases h

/-- If the peeled remainder has the fixed-size-array shape, the loop raises
the fixed-size-array error. -/
theorem splitRev_fixedArr (s : Str) (mods : List TypeModifier)
    (h : fixedArrayCheckRev (peelRev s) = true) :
    splitRev s mods = .error .fixedSizeArray := by
  induction s, mods using splitRev.induct with
  | case1 rest mods ih =>
    rw [show peelRev (']' :: '[' :: rest) = peelRev rest from by rw [peelRev]] at h
    rw [show splitRev (']' :: '[' :: rest) mods
        = splitRev rest (mods ++ [TypeModifier.ARRAY]) from by rw [splitRev]]
    exact ih h
  | case2 rest mods ih =>
    rw [show peelRev ('?' :: rest) = peelRev rest from by rw [peelRev]] at h
    rw [show splitRev ('?' :: rest) mods
        = splitRev rest (mods ++ [TypeModifier.OPTIONAL]) from by rw [splitRev]]
    exact ih h
  | case3 rest mods ih =>
    rw [show peelRev ('$' :: rest) = peelRev rest from by rw [peelRev]] at h
    rw [show splitRev ('$' :: rest) mods
        = splitRev rest (mods ++ [TypeModifier.EXTENSION]) from by rw [splitRev]]
    exact ih h
  | case4 mods => simp [peelRev, fixedArrayCheckRev] at h
  | case5 rest mods h1 h2 h3 hf =>
    rw [splitRev_fixpoint _ _ _ h1 h2 h3, if_pos rfl, if_pos hf]
  | case6 rest mods h1 h2 h3 hf =>
    rw [peelRev_fix _ _ h1 h2 h3] at h
    exact absurd h hf
  | case7 last rest mods h1 h2 h3 hne =>
    rw [peelRev_fix _ _ h1 h2 h3] at h
    rw [fixedArrayCheckRev_ne _ _ hne] at h
    cases h

/-- **Claim C7.**  A type expression whose remainder after peeling the
trailing `[]`/`?`/`$` tokens still ends in `]` with a nonempty digit run
after the last `[` (fixed-size array syntax such as `uint8[32]`) makes
`split_type_modifiers` — and therefore `resolve_type` — raise the
fixed-size-array `TypeError`; such an expression is never resolved. -/
theorem c7_fixed_size_array_rejected (v : ABIViewM) (s : Str)
    (h : fixedArrayCheckRev (peelRev s.reverse) = true) :
    splitTypeModifiers s = .error .fixedSizeArray ∧
      v.resolve_type s = .error .fixedSizeArray := by
  have hs : splitTypeModifiers s = .error .fixedSizeArray := by
    unfold splitTypeModifiers
    rw [splitRev_fixedArr s.reverse [] h]
    rfl
  refine ⟨hs, ?_⟩
  unfold ABIViewM.resolve_type
  rw [hs]

/-- Witness for C7: `uint8[32]` is rejected by peeling and by the
resolver. -/
theorem c7_fixed_size_array_rejected_witness :
    fixedArrayCheckRev (peelRev (str "uint8[32]").reverse) = true ∧
    (splitTypeModifiers (str "uint8[32]") = .error .fixedSizeArray ∧
      (ABIViewM.ofDef ⟨str "1", [], [], [], [], []⟩).resolve_type (str "uint8[32]")
        = .error .fixedSizeArray) := by
  have h : fixedArrayCheckRev (peelRev (str "uint8[32]").reverse) = true := by decide
  exact ⟨h, c7_fixed_size_array_rejected _ _ h⟩

/-- **Claim C9.**  `split_type_modifiers` — and therefore `resolve_type` —
is not total on strings: for the empty string, and for every string that
peels away entirely (it consists only of the modifier tokens `[]`, `?`,
`$`), the code raises `IndexError` from evaluating `name[-1]` on the empty
remainder instead of returning a result or a validation diagnostic. -/
theorem c9_modifier_only_index_error (v : ABIViewM) (s : Str)
    (h : peelRev s.reverse = []) :
    splitTypeModifiers s = .error .indexError ∧
      v.resolve_type s = .error .indexError := by
  have hs : splitTypeModifiers s = .error .indexError := by
    unfold splitTypeModifiers
    rw [splitRev_indexError s.reverse [] h]
    rfl
  refine ⟨hs, ?_⟩
  unfold ABIViewM.resolve_type
  rw [hs]

/-- Witness for C9: the empty string, `"?"`, `"$"` and `"[]"` all raise
`IndexError`. -/
theorem c9_modifier_only_index_error_witness :
    (peelRev (str "").reverse = [] ∧
      splitTypeModifiers (str "") = .error .indexError) ∧
    (peelRev (str "?").reverse = [] ∧
      splitTypeModifiers (str "?") = .error .indexError) ∧
    (peelRev (str "$").reverse = [] ∧
      splitTypeModifiers (str "$") = .error .indexError) ∧
    (peelRev (str "[]").reverse = [] ∧
      (splitTypeModifiers (str "[]") = .error .indexError ∧
        (ABIViewM.ofDef ⟨str "1", [], [], [], [], []⟩).resolve_type (str "[]")
          = .error .indexError)) := by
  refine ⟨⟨by decide, ?_⟩, ⟨by decide, ?_⟩, ⟨by decide, ?_⟩, ⟨by decide, ?_⟩⟩
  · exact (c9_modifier_only_index_error (ABIViewM.ofDef ⟨str "1", [], [], [], [], []⟩)
      (str "") (by decide)).1
  · exact (c9_modifier_only_index_error (ABIViewM.ofDef ⟨str "1", [], [], [], [], []⟩)
      (str "?") (by decide)).1
  · exact (c9_modifier_only_index_error (ABIViewM.ofDef ⟨str "1", [], [], [], [], []⟩)
      (str "$") (by decide)).1
  · exact c9_modifier_only_index_error _ (str "[]") (by decide)

/-! ### Alias-loop step lemmas and claims C4 and C8 -/

theorem aliasLoop_done (amap : List (Str × Str)) (base : Str)
    (mods : List TypeModifier) (visited : List Str) (isAlias : Bool)
    (h : dlookup amap base = none) :
    aliasLoop amap base mods visited isAlias = .ok (base, mods, isAlias) := by
  rw [aliasLoop.eq_def]
  split
  · rfl
  · next target heq => rw [h] at heq; cases heq

theorem aliasLoop_cycle (amap : List (Str × Str)) (base : Str)
    (mods : List TypeModifier) (visited : List Str) (isAlias : Bool) (target : Str)
    (h : dlookup amap base = some target) (hne : target ≠ [])
    (hv : base ∈ visited) :
    aliasLoop amap base mods visited isAlias = .error .circularAlias := by
  rw [aliasLoop.eq_def]
  split
  · next heq => rw [h] at heq; cases heq
  · next target2 heq =>
    rw [h] at heq
    injection heq with heq2
    subst heq2
    rw [if_neg hne, dif_pos hv]

theorem aliasLoop_step (amap : List (Str × Str)) (base : Str)
    (mods : List TypeModifier) (visited : List Str) (isAlias : Bool)
    (target tbase : Str) (tmods : List TypeModifier)
    (h : dlookup amap base = some target) (hne : target ≠ [])
    (hv : ¬ base ∈ visited)
    (hsp : splitTypeModifiers target = .ok (tbase, tmods)) :
    aliasLoop amap base mods visited isAlias
      = aliasLoop amap tbase (mods ++ tmods) (base :: visited) true := by
  rw [aliasLoop.eq_def]
  split
  · next heq => rw [h] at heq; cases heq
  · next target2 heq =>
    rw [h] at heq
    injection heq with heq2
    subst heq2
    rw [if_neg hne, dif_neg hv, hsp]

/-- Bindings listed in `adds` (with distinct keys) win under
`dict.update`. -/
theorem dlookup_dupdate_mem {α : Type} (adds : List (Str × α))
    (m : List (Str × α)) (k : Str) (v : α)
    (h : (k, v) ∈ adds) (huniq : (adds.map Prod.fst).Nodup) :
    dlookup (dupdate m adds) k = some v := by
  induction adds generalizing m with
  | nil => simp at h
  | cons kv adds ih =>
    obtain ⟨k0, v0⟩ := kv
    simp only [List.map_cons, List.nodup_cons] at huniq
    rw [dupdate_cons]
    rcases List.mem_cons.mp h with h0 | h0
    · injection h0 with hk hv0
      subst hk
      subst hv0
      rw [dlookup_dupdate_not_mem adds _ k huniq.1, dlookup_dinsert_self]
    · exact ih _ h0 huniq.2

theorem builtin_aliases_nodup : (BUILTIN_ALIASES.map Prod.fst).Nodup := by decide

theorem builtin_structs_nodup : (BUILTIN_STRUCTS.map Prod.fst).Nodup := by decide

/-- **Claim C4.**  An ABI whose alias table is the two-cycle
`a → b, b → a` (with `a`, `b` plain distinct names that are not built-in
alias names) makes `resolve_type a` terminate with the circular-alias
`TypeError` — the loop's `visited` set catches the revisit instead of
recursing without bound (in this embedding the loop is total by
construction: its variant is the number of unvisited alias keys). -/
theorem c4_alias_cycle_detected (a b : Str) (d : ABIDefM)
    (hty : d.types = [⟨a, b⟩, ⟨b, a⟩])
    (hsa : splitTypeModifiers a = .ok (a, []))
    (hsb : splitTypeModifiers b = .ok (b, []))
    (hba : ¬ a ∈ BUILTIN_ALIASES.map Prod.fst)
    (hbb : ¬ b ∈ BUILTIN_ALIASES.map Prod.fst)
    (hab : a ≠ b) :
    (ABIViewM.ofDef d).resolve_type a = .error .circularAlias := by
  have hane : a ≠ [] := by
    intro hnil
    rw [hnil] at hsa
    simp [splitTypeModifiers, splitRev, Except.map] at hsa
  have hbne : b ≠ [] := by
    intro hnil
    rw [hnil] at hsb
    simp [splitTypeModifiers, splitRev, Except.map] at hsb
  have huser : dictOf (d.types.map fun x => (x.new_type_name, x.type_))
      = [(a, b), (b, a)] := by
    rw [hty]
    simp only [List.map_cons, List.map_nil]
    rw [dictOf_eq_dupdate, dupdate_cons, dupdate_cons, dupdate_nil]
    simp [dinsert, hab]
  have hmap : (ABIViewM.ofDef d).alias_map
      = dupdate [(a, b), (b, a)] BUILTIN_ALIASES := by
    rw [ofDef_alias_map, huser]
  have hla : dlookup (ABIViewM.ofDef d).alias_map a = some b := by
    rw [hmap, dlookup_dupdate_not_mem _ _ _ hba]
    simp [dlookup]
  have hlb : dlookup (ABIViewM.ofDef d).alias_map b = some a := by
    rw [hmap, dlookup_dupdate_not_mem _ _ _ hbb]
    simp [dlookup, hab]
  unfold ABIViewM.resolve_type
  rw [hsa]
  dsimp only
  rw [aliasLoop_step _ _ _ _ _ _ _ _ hla hbne (by simp) hsb]
  rw [aliasLoop_step _ _ _ _ _ _ _ _ hlb hane (by simp [Ne.symm hab]) hsa]
  rw [aliasLoop_cycle _ _ _ _ _ _ hla hbne (by simp)]

/-- Witness for C4: aliases `foo → bar, bar → foo`. -/
theorem c4_alias_cycle_detected_witness :
    splitTypeModifiers (str "foo") = .ok (str "foo", []) ∧
    splitTypeModifiers (str "bar") = .ok (str "bar", []) ∧
    ¬ str "foo" ∈ BUILTIN_ALIASES.map Prod.fst ∧
    ¬ str "bar" ∈ BUILTIN_ALIASES.map Prod.fst ∧
    str "foo" ≠ str "bar" ∧
    (ABIViewM.ofDef
        ⟨str "1", [⟨str "foo", str "bar"⟩, ⟨str "bar", str "foo"⟩], [], [], [], []⟩
      ).resolve_type (str "foo") = .error .circularAlias := by
  refine ⟨rfl, rfl, by decide, by decide, by decide, ?_⟩
  exact c4_alias_cycle_detected (str "foo") (str "bar") _ rfl
    rfl rfl (by decide) (by decide) (by decide)

/-- **Claim C8.**  A user alias or struct whose name collides with an
injected built-in is silently discarded: `dict.update` makes the built-in
binding win in `alias_map`/`struct_map`, and `resolve_type` consequently
follows the built-in definition.  In particular a user alias for `name`
is ignored: `resolve_type "name"` still resolves to the built-in target
`uint64` (provided nothing aliases `uint64` itself). -/
theorem c8_builtin_collision_keeps_builtin (d : ABIDefM)
    (hu64 : dlookup (ABIViewM.ofDef d).alias_map (str "uint64") = none) :
    (∀ kv, kv ∈ BUILTIN_ALIASES →
      dlookup (ABIViewM.ofDef d).alias_map kv.1 = some kv.2) ∧
    (∀ kv, kv ∈ BUILTIN_STRUCTS →
      dlookup (ABIViewM.ofDef d).struct_map kv.1 = some kv.2) ∧
    (∃ r, (ABIViewM.ofDef d).resolve_type (str "name") = .ok r ∧
      r.resolved_name = str "uint64" ∧ r.is_alias = true ∧ r.is_std = true) := by
  have halias : ∀ kv, kv ∈ BUILTIN_ALIASES →
      dlookup (ABIViewM.ofDef d).alias_map kv.1 = some kv.2 := by
    intro ⟨k, v⟩ hm
    rw [ofDef_alias_map]
    exact dlookup_dupdate_mem _ _ _ _ hm builtin_aliases_nodup
  have hstruct : ∀ kv, kv ∈ BUILTIN_STRUCTS →
      dlookup (ABIViewM.ofDef d).struct_map kv.1 = some kv.2 := by
    intro ⟨k, v⟩ hm
    rw [ofDef_struct_map]
    exact dlookup_dupdate_mem _ _ _ _ hm builtin_structs_nodup
  refine ⟨halias, hstruct, ?_⟩
  have hname : dlookup (ABIViewM.ofDef d).alias_map (str "name") = some (str "uint64") :=
    halias (str "name", str "uint64") (by decide)
  unfold ABIViewM.resolve_type
  rw [show splitTypeModifiers (str "name") = .ok (str "name", []) from rfl]
  dsimp only
  rw [aliasLoop_step _ _ _ _ _ _ _ _ hname (by decide) (by simp)
    (show splitTypeModifiers (str "uint64") = .ok (str "uint64", []) from rfl)]
  rw [aliasLoop_done _ _ _ _ _ hu64]
  dsimp only
  have hvalid : (ABIViewM.ofDef d).is_valid_type (str "uint64") = true := by
    unfold ABIViewM.is_valid_type
    have : str "uint64" ∈ (ABIViewM.ofDef d).valid_types :=
      ofDef_valid_types_std d _ (by decide)
    simp [this]
  rw [show (!(ABIViewM.ofDef d).is_valid_type (str "uint64")) = false from by
    rw [hvalid]; rfl]
  simp only [Bool.false_eq_true, if_false]
  have hra : (ABIViewM.ofDef d).resolve_alias (str "uint64") = str "uint64" := by
    unfold ABIViewM.resolve_alias
    rw [hu64]
    rfl
  rw [show ((ABIViewM.ofDef d).resolve_alias (str "uint64")) = str "uint64" from hra]
  rw [show is_raw_type (str "uint64") = false from by decide]
  simp only [Bool.false_eq_true, if_false]
  exact ⟨_, rfl, rfl, rfl, rfl⟩

unseal dupdate in
/-- Witness for C8: a document aliasing `name → string` still resolves
`name` to the built-in `uint64`. -/
theorem c8_builtin_collision_keeps_builtin_witness :
    dlookup (ABIViewM.ofDef
        ⟨str "1", [⟨str "name", str "string"⟩], [], [], [], []⟩).alias_map
      (str "uint64") = none ∧
    ((∀ kv, kv ∈ BUILTIN_ALIASES →
      dlookup (ABIViewM.ofDef
          ⟨str "1", [⟨str "name", str "string"⟩], [], [], [], []⟩).alias_map kv.1
        = some kv.2) ∧
    (∀ kv, kv ∈ BUILTIN_STRUCTS →
      dlookup (ABIViewM.ofDef
          ⟨str "1", [⟨str "name", str "string"⟩], [], [], [], []⟩).struct_map kv.1
        = some kv.2) ∧
    (∃ r, (ABIViewM.ofDef
          ⟨str "1", [⟨str "name", str "string"⟩], [], [], [], []⟩).resolve_type
        (str "name") = .ok r ∧
      r.resolved_name = str "uint64" ∧ r.is_alias = true ∧ r.is_std = true)) := by
  refine ⟨by decide, ?_⟩
  exact c8_builtin_collision_keeps_builtin _ (by decide)

/-! ### The content hash and cache fingerprint (claims C3 and C10)

`ABIView.hash` feeds SHA-256 with, in order: the marker `structs` then each
struct's name and its fields' names and types; the marker `enums` then each
variant's name and member list; the marker `aliases` then each alias pair
(`protocol.py: ABIView.hash`).  `hash_abi_for_cache` feeds a second SHA-256
with the pipeline digest, the ABI digest and the three parameter bytes
(`__init__.py: hash_abi_for_cache`).  SHA-256 itself is idealized as an
injective function, i.e. a digest is modelled by the exact byte stream it
was computed over; equality/inequality of fingerprints is settled on these
streams. -/

/-- `cache.py: ModuleParams`. -/
structure ModuleParamsM where
  debug : Bool
  with_pack : Bool
  with_unpack : Bool
  deriving Repr, DecidableEq

/-- `ModuleParams.as_bytes` — three bytes `int(bool)`. -/
def ModuleParamsM.as_bytes (p : ModuleParamsM) : Str :=
  [Char.ofNat (if p.debug then 1 else 0),
   Char.ofNat (if p.with_pack then 1 else 0),
   Char.ofNat (if p.with_unpack then 1 else 0)]

/-- The bytes `ABIView.hash` feeds for one struct: name, then each field's
name and type.  The struct's `base` is never read. -/
def structHashStream (s : StructDefM) : Str :=
  s.name ++ (s.fields.map (fun f => f.name ++ f.type_)).join

def variantHashStream (e : VariantDefM) : Str :=
  e.name ++ e.types.join

def aliasHashStream (a : AliasDefM) : Str :=
  a.new_type_name ++ a.type_

/-- The full byte stream `ABIView.hash` digests. -/
def abiHashStream (d : ABIDefM) : Str :=
  str "structs" ++ (d.structs.map structHashStream).join ++
  str "enums" ++ (d.variants.map variantHashStream).join ++
  str "aliases" ++ (d.types.map aliasHashStream).join

/-- The byte stream `hash_abi_for_cache` digests: pipeline digest, ABI
digest (idealized by its preimage stream), parameter bytes. -/
def fingerprintStream (pipeline : Str) (d : ABIDefM) (p : ModuleParamsM) : Str :=
  pipeline ++ abiHashStream d ++ p.as_bytes

theorem params_as_bytes_inj (p p' : ModuleParamsM)
    (h : p.as_bytes = p'.as_bytes) : p = p' := by
  obtain ⟨a, b, c⟩ := p
  obtain ⟨a', b', c'⟩ := p'
  revert h
  revert a b c a' b' c'
  decide

/-- **Claim C3** (fingerprint stability, spec §8 / I5).  With SHA-256
idealized as injective: (i) the fingerprint depends only on the parsed
`(structs, variants, aliases)` triple — two documents with equal parses
(in particular, documents differing only in whitespace) and equal build
parameters fingerprint equally; (ii) changing one field's name changes the
fingerprint; (iii) changing one field's type changes the fingerprint;
(iv) changing the build parameters changes the fingerprint. -/
theorem c3_fingerprint_stability :
    (∀ (pl : Str) (d d' : ABIDefM) (p : ModuleParamsM),
      d.structs = d'.structs → d.variants = d'.variants → d.types = d'.types →
        fingerprintStream pl d p = fingerprintStream pl d' p) ∧
    (∀ (pl : Str) (p : ModuleParamsM) (d : ABIDefM)
        (S1 S2 : List StructDefM) (F1 F2 : List FieldDefM)
        (nm : Str) (bs : Option Str) (n n' t : Str),
      n ≠ n' →
        fingerprintStream pl
            { d with structs := S1 ++ ⟨nm, F1 ++ ⟨n, t⟩ :: F2, bs⟩ :: S2 } p ≠
          fingerprintStream pl
            { d with structs := S1 ++ ⟨nm, F1 ++ ⟨n', t⟩ :: F2, bs⟩ :: S2 } p) ∧
    (∀ (pl : Str) (p : ModuleParamsM) (d : ABIDefM)
        (S1 S2 : List StructDefM) (F1 F2 : List FieldDefM)
        (nm : Str) (bs : Option Str) (n t t' : Str),
      t ≠ t' →
        fingerprintStream pl
            { d with structs := S1 ++ ⟨nm, F1 ++ ⟨n, t⟩ :: F2, bs⟩ :: S2 } p ≠
          fingerprintStream pl
            { d with structs := S1 ++ ⟨nm, F1 ++ ⟨n, t'⟩ :: F2, bs⟩ :: S2 } p) ∧
    (∀ (pl : Str) (d : ABIDefM) (p p' : ModuleParamsM),
      p ≠ p' → fingerprintStream pl d p ≠ fingerprintStream pl d p') := by
  refine ⟨?_, ?_, ?_, ?_⟩
  · intro pl d d' p h1 h2 h3
    simp only [fingerprintStream, abiHashStream, h1, h2, h3]
  · intro pl p d S1 S2 F1 F2 nm bs n n' t hne heq
    simp only [fingerprintStream, abiHashStream, structHashStream, List.map_append,
      List.map_cons, List.join_append, List.join_cons, List.append_assoc] at heq
    replace heq := List.append_cancel_left heq
    replace heq := List.append_cancel_left heq
    replace heq := List.append_cancel_left heq
    replace heq := List.append_cancel_left heq
    replace heq := List.append_cancel_left heq
    rw [← List.append_assoc n, ← List.append_assoc n'] at heq
    replace heq := List.append_cancel_right heq
    replace heq := List.append_cancel_right heq
    exact hne heq
  · intro pl p d S1 S2 F1 F2 nm bs n t t' hne heq
    simp only [fingerprintStream, abiHashStream, structHashStream, List.map_append,
      List.map_cons, List.join_append, List.join_cons, List.append_assoc] at heq
    replace heq := List.append_cancel_left heq
    replace heq := List.append_cancel_left heq
    replace heq := List.append_cancel_left heq
    replace heq := List.append_cancel_left heq
    replace heq := List.append_cancel_left heq
    replace heq := List.append_cancel_left heq
    rw [← List.append_assoc t, ← List.append_assoc t'] at heq
    replace heq := List.append_cancel_right heq
    replace heq := List.append_cancel_right heq
    exact hne heq
  · intro pl d p p' hne heq
    simp only [fingerprintStream, List.append_assoc] at heq
    replace heq := List.append_cancel_left heq
    replace heq := List.append_cancel_left heq
    exact hne (params_as_bytes_inj p p' heq)

/-- Witness for C3 at concrete inputs: a version-only difference keeps the
fingerprint; renaming field `a` to `b`, retyping it from `uint8` to
`uint16`, and flipping `debug` each change it. -/
theorem c3_fingerprint_stability_witness :
    (fingerprintStream [] ⟨str "1.0", [], [], [], [], []⟩ ⟨false, true, true⟩
      = fingerprintStream [] ⟨str "1.1", [], [], [], [], []⟩ ⟨false, true, true⟩) ∧
    (fingerprintStream []
        ⟨str "1", [], [⟨str "s", [⟨str "a", str "uint8"⟩], none⟩], [], [], []⟩
        ⟨false, true, true⟩
      ≠ fingerprintStream []
        ⟨str "1", [], [⟨str "s", [⟨str "b", str "uint8"⟩], none⟩], [], [], []⟩
        ⟨false, true, true⟩) ∧
    (fingerprintStream []
        ⟨str "1", [], [⟨str "s", [⟨str "a", str "uint8"⟩], none⟩], [], [], []⟩
        ⟨false, true, true⟩
      ≠ fingerprintStream []
        ⟨str "1", [], [⟨str "s", [⟨str "a", str "uint16"⟩], none⟩], [], [], []⟩
        ⟨false, true, true⟩) ∧
    (fingerprintStream [] ⟨str "1", [], [], [], [], []⟩ ⟨false, true, true⟩
      ≠ fingerprintStream [] ⟨str "1", [], [], [], [], []⟩ ⟨true, true, true⟩) := by
  refine ⟨?_, ?_, ?_, ?_⟩
  · exact c3_fingerprint_stability.1 [] _ _ _ rfl rfl rfl
  · exact c3_fingerprint_stability.2.1 [] ⟨false, true, true⟩
      ⟨str "1", [], [], [], [], []⟩ [] [] [] [] (str "s") none
      (str "a") (str "b") (str "uint8") (by decide)
  · exact c3_fingerprint_stability.2.2.1 [] ⟨false, true, true⟩
      ⟨str "1", [], [], [], [], []⟩ [] [] [] [] (str "s") none
      (str "a") (str "uint8") (str "uint16") (by decide)
  · exact c3_fingerprint_stability.2.2.2 [] ⟨str "1", [], [], [], [], []⟩ _ _
      (by decide)

/-- **Claim C10.**  `ABIView.hash` never reads a struct's `base`: two
definitions whose structs agree on names and fields (bases arbitrary) and
that share variants and aliases produce the same content-hash stream and
hence the same cache fingerprint for equal build parameters. -/
theorem c10_hash_ignores_base (pl : Str) (p : ModuleParamsM) (d d' : ABIDefM)
    (hs : List.Forall₂ (fun s s' : StructDefM => s.name = s'.name ∧ s.fields = s'.fields)
      d.structs d'.structs)
    (hv : d.variants = d'.variants) (ht : d.types = d'.types) :
    fingerprintStream pl d p = fingerprintStream pl d' p := by
  have hmap : ∀ (l l' : List StructDefM),
      List.Forall₂ (fun s s' : StructDefM => s.name = s'.name ∧ s.fields = s'.fields)
        l l' → l.map structHashStream = l'.map structHashStream := by
    intro l l' h
    induction h with
    | nil => rfl
    | cons h _ ih =>
      simp only [List.map_cons, ih, List.cons.injEq, and_true]
      unfold structHashStream
      rw [h.1, h.2]
  simp only [fingerprintStream, abiHashStream, hmap _ _ hs, hv, ht]

/-- Witness for C10: two structs differing only in `base`. -/
theorem c10_hash_ignores_base_witness :
    List.Forall₂ (fun s s' : StructDefM => s.name = s'.name ∧ s.fields = s'.fields)
      [⟨str "s", [⟨str "a", str "uint8"⟩], none⟩]
      [⟨str "s", [⟨str "a", str "uint8"⟩], some (str "parent")⟩] ∧
    fingerprintStream []
        ⟨str "1", [], [⟨str "s", [⟨str "a", str "uint8"⟩], none⟩], [], [], []⟩
        ⟨false, true, true⟩
      = fingerprintStream []
        ⟨str "1", [], [⟨str "s", [⟨str "a", str "uint8"⟩], some (str "parent")⟩],
          [], [], []⟩
        ⟨false, true, true⟩ := by
  have hf : List.Forall₂
      (fun s s' : StructDefM => s.name = s'.name ∧ s.fields = s'.fields)
      [⟨str "s", [⟨str "a", str "uint8"⟩], none⟩]
      [⟨str "s", [⟨str "a", str "uint8"⟩], some (str "parent")⟩] :=
    List.Forall₂.cons ⟨rfl, rfl⟩ List.Forall₂.nil
  exact ⟨hf, c10_hash_ignores_base [] ⟨false, true, true⟩ _ _ hf rfl rfl⟩

/-- Decidable equality for `Except` results (both components decidable). -/
def exceptDecEq {E A : Type} [DecidableEq E] [DecidableEq A] :
    (a b : Except E A) → Decidable (a = b)
  | .error e, .error e' =>
    if h : e = e' then .isTrue (by rw [h])
    else .isFalse (by intro hc; injection hc; contradiction)
  | .error _, .ok _ => .isFalse (by intro hc; cases hc)
  | .ok _, .error _ => .isFalse (by intro hc; cases hc)
  | .ok a, .ok a' =>
    if h : a = a' then .isTrue (by rw [h])
    else .isFalse (by intro hc; injection hc; contradiction)

instance {E A : Type} [DecidableEq E] [DecidableEq A] : DecidableEq (Except E A) :=
  exceptDecEq

/-- Resolving a plain std-type name against the empty document's view:
no modifiers, no alias step, classified by the std set. -/
theorem resolve_std_trivial (t : Str)
    (hsp : splitTypeModifiers t = .ok (t, []))
    (hna : dlookup (ABIViewM.ofDef ⟨str "1", [], [], [], [], []⟩).alias_map t = none)
    (hstd : t ∈ STD_TYPES)
    (hnr : is_raw_type t = false) :
    (ABIViewM.ofDef ⟨str "1", [], [], [], [], []⟩).resolve_type t
      = .ok { original_name := t, resolved_name := t, args := [],
              is_std := is_std_type t, is_alias := false,
              is_struct :=
                dcontains (ABIViewM.ofDef ⟨str "1", [], [], [], [], []⟩).struct_map t,
              is_variant :=
                dcontains (ABIViewM.ofDef ⟨str "1", [], [], [], [], []⟩).variant_map t,
              modifiers := [] } := by
  unfold ABIViewM.resolve_type
  rw [hsp]
  dsimp only
  rw [aliasLoop_done _ _ _ _ _ hna]
  dsimp only
  have hvalid : (ABIViewM.ofDef ⟨str "1", [], [], [], [], []⟩).is_valid_type t = true := by
    unfold ABIViewM.is_valid_type
    have := ofDef_valid_types_std ⟨str "1", [], [], [], [], []⟩ t hstd
    simp [this]
  rw [show (!(ABIViewM.ofDef ⟨str "1", [], [], [], [], []⟩).is_valid_type t) = false
    from by rw [hvalid]; rfl]
  simp only [Bool.false_eq_true, if_false]
  have hra : (ABIViewM.ofDef ⟨str "1", [], [], [], [], []⟩).resolve_alias t = t := by
    unfold ABIViewM.resolve_alias
    rw [hna]
    rfl
  rw [hra, hnr]
  simp only [Bool.false_eq_true, if_false]

/-! ### The variant scalar-dispatch table (claim C5)

`codegen/cpython.py: try_c_source_from_abi` builds, for each variant, a
Python dict `targets` mapping an input-category key (`bytes`, `string`,
`int`, `float`, `bool`, `dict`) to the member index the generated pack code
dispatches a bare value of that category to.  The dict is built with plain
assignment `targets[cat] = i`, so a later member in the same category
overwrites an earlier one. -/

/-- `sanitize.py: check_ident`'s regex `^[A-Za-z_][A-Za-z0-9_]*$`. -/
def isIdent : Str → Bool
  | [] => false
  | c :: rest =>
    (c.isAlpha || c = '_') && rest.all (fun x => x.isAlphanum || x = '_')

/-- Python's substring test `sub in s`. -/
def pyIn (sub s : Str) : Bool :=
  (List.range (s.length + 1)).any (fun i => decide ((s.drop i).take sub.length = sub))

/-- The `(key, value)` pair the loop body of `try_c_source_from_abi` writes
into `targets` for the member `t` at index `i` (or the exception it
raises). -/
def memberTargetEntry (v : ABIViewM) (t : Str) (i : Nat) : Except PyErr (Str × Nat) :=
  if ¬ isIdent t then .error .invalidIdent
  else
    match v.resolve_type t with
    | .error e => .error e
    | .ok var_call =>
      let var_type := var_call.resolved_name
      let is_std := is_std_type var_type
      let is_raw := !is_std && is_raw_type var_type
      if is_raw || decide (var_type = str "bytes") then .ok (str "bytes", i)
      else if is_std then
        if var_type = str "string" then .ok (str "string", i)
        else if pyIn (str "int") var_type then .ok (str "int", i)
        else if pyIn (str "float") var_type then .ok (str "float", i)
        else if var_type = str "bool" then .ok (str "bool", i)
        else .error .unknownStdType
      else .ok (str "dict", 0)  -- dummy value, as in the source

/-- The `targets`-building loop of `try_c_source_from_abi`. -/
def buildTargetsAux (v : ABIViewM) :
    List Str → Nat → List (Str × Nat) → Except PyErr (List (Str × Nat))
  | [], _, targets => .ok targets
  | t :: rest, i, targets =>
    match memberTargetEntry v t i with
    | .error e => .error e
    | .ok (k, val) => buildTargetsAux v rest (i + 1) (dinsert targets k val)

/-- The `targets` dict for a variant's member list. -/
def buildTargets (v : ABIViewM) (types : List Str) : Except PyErr (List (Str × Nat)) :=
  buildTargetsAux v types 0 []

/-- The last `(key, value)` write a member run performs for `key`
(spec-side description of dict overwrite semantics). -/
def lastWriteVal (v : ABIViewM) : List Str → Nat → Str → Option Nat
  | [], _, _ => none
  | t :: rest, i, key =>
    match lastWriteVal v rest (i + 1) key with
    | some val => some val
    | none =>
      match memberTargetEntry v t i with
      | .ok (k, val) => if k = key then some val else none
      | .error _ => none

theorem buildTargetsAux_lookup (v : ABIViewM) (ts : List Str) :
    ∀ (i : Nat) (targets m : List (Str × Nat)) (key : Str),
      buildTargetsAux v ts i targets = .ok m →
      dlookup m key =
        (match lastWriteVal v ts i key with
         | some val => some val
         | none => dlookup targets key) := by
  induction ts with
  | nil =>
    intro i targets m key h
    injection h with h2
    subst h2
    rfl
  | cons t rest ih =>
    intro i targets m key h
    rw [show buildTargetsAux v (t :: rest) i targets
        = (match memberTargetEntry v t i with
           | .error e => .error e
           | .ok (k, val) => buildTargetsAux v rest (i + 1) (dinsert targets k val))
      from by rw [buildTargetsAux]] at h
    cases he : memberTargetEntry v t i with
    | error e => rw [he] at h; cases h
    | ok kv =>
      obtain ⟨k, val⟩ := kv
      rw [he] at h
      have hrec := ih (i + 1) (dinsert targets k val) m key h
      rw [show lastWriteVal v (t :: rest) i key
          = (match lastWriteVal v rest (i + 1) key with
             | some val => some val
             | none =>
               match memberTargetEntry v t i with
               | .ok (k, val) => if k = key then some val else none
               | .error _ => none)
        from by rw [lastWriteVal]]
      cases hl : lastWriteVal v rest (i + 1) key with
      | some val2 =>
        rw [hl] at hrec
        exact hrec
      | none =>
        rw [hl] at hrec
        rw [he]
        show dlookup m key =
          (match (if k = key then some val else none : Option Nat) with
           | some val2 => some val2
           | none => dlookup targets key)
        by_cases hk : k = key
        · subst hk
          rw [if_pos rfl]
          rw [dlookup_dinsert_self] at hrec
          exact hrec
        · rw [if_neg hk]
          rw [dlookup_dinsert_ne _ _ _ _ (fun hc => hk hc.symm)] at hrec
          exact hrec

unseal dupdate in
/-- On the builtin-only view, the target entry for member `uint32` at index 0
is the bare-integer category entry `("int", 0)`. -/
theorem memberTargetEntry_u32 :
    memberTargetEntry (ABIViewM.ofDef ⟨str "1", [], [], [], [], []⟩)
      (str "uint32") 0 = .ok (str "int", 0) := by
  unfold memberTargetEntry
  rw [if_neg (by decide), resolve_std_trivial (str "uint32") rfl (by decide)
    (by decide) (by decide)]
  rfl

unseal dupdate in
/-- On the builtin-only view, the target entry for member `uint64` at index 1
is the bare-integer category entry `("int", 1)`. -/
theorem memberTargetEntry_u64 :
    memberTargetEntry (ABIViewM.ofDef ⟨str "1", [], [], [], [], []⟩)
      (str "uint64") 1 = .ok (str "int", 1) := by
  unfold memberTargetEntry
  rw [if_neg (by decide), resolve_std_trivial (str "uint64") rfl (by decide)
    (by decide) (by decide)]
  rfl

/-- For the member list `[uint32, uint64]`, building the dispatch table
succeeds and binds the integer category to index 1 (the later member). -/
theorem buildTargets_two_ints :
    buildTargets (ABIViewM.ofDef ⟨str "1", [], [], [], [], []⟩)
      [str "uint32", str "uint64"] = .ok [(str "int", 1)] := by
  unfold buildTargets
  simp only [buildTargetsAux, Nat.zero_add, memberTargetEntry_u32,
    memberTargetEntry_u64]
  rfl

/-- For the member list `[uint32, uint64]`, the last member writing the
integer-category key is the one at index 1. -/
theorem lastWriteVal_two_ints :
    lastWriteVal (ABIViewM.ofDef ⟨str "1", [], [], [], [], []⟩)
      [str "uint32", str "uint64"] 0 (str "int") = some 1 := by
  simp only [lastWriteVal, Nat.zero_add, memberTargetEntry_u32,
    memberTargetEntry_u64]
  rfl

/-- **Counterexample to C5 as stated.**  For the variant member list
`[uint32, uint64]` — two alternatives in the integer scalar category —
source generation does not fail: the `targets` dict is built successfully
and maps the bare-integer category to index 1 (the later alternative), so
packing a bare integer selects `uint64` instead of raising an error. -/
theorem c5_counterexample_two_ints_no_error :
    buildTargets (ABIViewM.ofDef ⟨str "1", [], [], [], [], []⟩)
      [str "uint32", str "uint64"] = .ok [(str "int", 1)] :=
  buildTargets_two_ints

/-- **Claim C5, amended.**  When a variant's member list has two or more
alternatives in one scalar category, building the pack dispatch table does
not fail; each category key is bound to the `(key, value)` write of the
*last* member in that category, so a bare scalar of that category is
dispatched to the last such alternative and the earlier ones are
unreachable. -/
theorem c5_amended_last_alternative_wins (v : ABIViewM) (ts : List Str)
    (m : List (Str × Nat)) (key : Str) (val : Nat)
    (h : buildTargets v ts = .ok m)
    (hlast : lastWriteVal v ts 0 key = some val) :
    dlookup m key = some val := by
  have := buildTargetsAux_lookup v ts 0 [] m key h
  rw [hlast] at this
  exact this

theorem c5_amended_last_alternative_wins_witness :
    buildTargets (ABIViewM.ofDef ⟨str "1", [], [], [], [], []⟩)
      [str "uint32", str "uint64"] = .ok [(str "int", 1)] ∧
    lastWriteVal (ABIViewM.ofDef ⟨str "1", [], [], [], [], []⟩)
      [str "uint32", str "uint64"] 0 (str "int") = some 1 ∧
    dlookup [(str "int", 1)] (str "int") = some 1 :=
  ⟨buildTargets_two_ints, lastWriteVal_two_ints,
   c5_amended_last_alternative_wins _ _ _ _ _
     buildTargets_two_ints lastWriteVal_two_ints⟩

/-! ### C6 — cache warm-start (`Cache._warm_from_disk`, cache.py 240–320)

The filesystem is reified as data: each artifact subdirectory the loop
visits becomes a `DiskEntryM` record carrying what the code observes on
disk (the state of `params.json`, whether the `.c` source and the compiled
module are present, and whether importing the module succeeds).  The
control flow of `warmFromDisk` is translated line by line from
`_warm_from_disk`. -/

/-- What the code finds at `src_hash_dir / 'params.json'`:
* `missing` — `params_path.is_file()` is false;
* `invalidJson` — the file exists but its text is not valid JSON, so
  `json.loads` raises `json.JSONDecodeError`;
* `jsonObj` — valid JSON object; each of the three expected keys is
  `some b` when present, and `extra` records whether any unexpected key
  is present (which makes `ModuleParams(**params)` raise `TypeError`). -/
inductive ParamsFileM where
  | missing : ParamsFileM
  | invalidJson : ParamsFileM
  | jsonObj (debug with_pack with_unpack : Option Bool) (extra : Bool) : ParamsFileM
  deriving Repr, DecidableEq

/-- One artifact subdirectory as the warm-start loop observes it. -/
structure DiskEntryM where
  mod_name : Str
  src_hash : Str
  paramsFile : ParamsFileM
  hasSource : Bool
  hasModule : Bool
  importOk : Bool
  deriving Repr, DecidableEq

/-- `CacheKey` (cache.py): module name, source hash, build params. -/
structure CacheKeyM where
  mod_name : Str
  src_hash : Str
  params : ModuleParamsM
  deriving Repr, DecidableEq

/-- Exceptions that escape `_warm_from_disk`. -/
inductive WarmErrM where
  | jsonDecodeError : WarmErrM        -- json.loads on non-JSON text
  | typeErrorUnexpectedKwarg : WarmErrM -- ModuleParams(**params), extra key
  deriving Repr, DecidableEq

/-- `Cache._warm_from_disk` (cache.py 240–320) over the reified disk
state.  Result: the `(key, module is not None)` pairs inserted into
`self._cache`, or the first uncaught exception.  Mirrored branches:
missing `params.json` → warn and `continue`; `json.loads` on invalid
text → uncaught `JSONDecodeError`; any of the three keys absent → warn
and `continue`; an unexpected key → uncaught `TypeError` from
`ModuleParams(**params)`; no `.c` source → warn and `continue`; compiled
module present but import fails → log and `continue`; otherwise the
entry is cached (with `module = None` when no compiled module exists). -/
def warmFromDisk : List DiskEntryM → Except WarmErrM (List (CacheKeyM × Bool))
  | [] => .ok []
  | e :: rest =>
    match e.paramsFile with
    | .missing => warmFromDisk rest
    | .invalidJson => .error .jsonDecodeError
    | .jsonObj d p u extra =>
      match d, p, u with
      | some db, some wp, some wu =>
        if extra then .error .typeErrorUnexpectedKwarg
        else if ¬ e.hasSource then warmFromDisk rest
        else if e.hasModule ∧ ¬ e.importOk then warmFromDisk rest
        else
          match warmFromDisk rest with
          | .error er => .error er
          | .ok tail =>
            .ok ((⟨e.mod_name, e.src_hash, ⟨db, wp, wu⟩⟩, e.hasModule) :: tail)
      | _, _, _ => warmFromDisk rest

/-- A well-formed cached entry on disk, for contrast. -/
def goodDiskEntry : DiskEntryM :=
  ⟨str "abi", str "cafe",
   .jsonObj (some false) (some true) (some true) false, true, true, true⟩

/-- **C6 — refuted (code bug).**  Warm-start does skip an entry whose
`params.json` is missing, and one whose JSON object lacks a required key
(first two conjuncts, each followed by a later good entry that still
loads).  But for an entry whose `params.json` contains text that is not
valid JSON, the unguarded `json.loads` raises `JSONDecodeError` out of
`_warm_from_disk` (third conjunct): warm-start itself raises, the
remaining good entry is never loaded, and `Cache` construction fails —
contradicting "skips that entry with a warning and continues … warm-start
itself never raises because of such an entry". -/
theorem c6_warm_start_raises_on_invalid_json :
    warmFromDisk [⟨str "abi", str "dead", .missing, true, true, true⟩,
                  goodDiskEntry]
      = .ok [(⟨str "abi", str "cafe", ⟨false, true, true⟩⟩, true)] ∧
    warmFromDisk [⟨str "abi", str "dead",
                    .jsonObj none (some true) (some true) false,
                    true, true, true⟩,
                  goodDiskEntry]
      = .ok [(⟨str "abi", str "cafe", ⟨false, true, true⟩⟩, true)] ∧
    warmFromDisk [⟨str "abi", str "dead", .invalidJson, true, true, true⟩,
                  goodDiskEntry]
      = .error .jsonDecodeError := by
  refine ⟨rfl, rfl, rfl⟩

/-! ### C2 — `JITContext.module_for_abi` (`__init__.py` 194–250)

The process state a `JITContext` and its `Cache` carry — the per-process
`_versions` dict, the in-memory `_cache` map, and which artifacts exist on
disk — is reified as a `JITStateM` record threaded through the calls.
Codegen and compilation themselves are opaque side effects; the state
counts their invocations (`genCount`, `compileCount`), which is what the
claim is about.  Importing a compiled module that exists on disk is
modelled as always succeeding. -/

/-- Association-list lookup keyed by any decidable-equality type
(`dict.get`). -/
def alookup {κ α : Type} [DecidableEq κ] : List (κ × α) → κ → Option α
  | [], _ => none
  | (k', v') :: rest, k => if k' = k then some v' else alookup rest k

/-- Association-list insert-or-overwrite (`dict.__setitem__`). -/
def ainsert {κ α : Type} [DecidableEq κ] : List (κ × α) → κ → α → List (κ × α)
  | [], k, v => [(k, v)]
  | (k', v') :: rest, k, v =>
    if k' = k then (k, v) :: rest else (k', v') :: ainsert rest k v

/-- `CacheEntry` as the C2 model needs it: whether `entry.module` is set
(the source text itself plays no role in the claim). -/
structure CEntryM where
  module : Bool
  deriving Repr, DecidableEq

/-- The process state of a `JITContext`: `_versions`, the `Cache`'s
in-memory `_cache` map, which keys have a `.c` source / a compiled
module on disk, and invocation counters for `codegen.c_source_from_abi`
and `compile_module`. -/
structure JITStateM where
  versions : List (Str × Nat)
  mem : List (CacheKeyM × CEntryM)
  diskSrc : List CacheKeyM
  diskMod : List CacheKeyM
  genCount : Nat
  compileCount : Nat
  deriving Repr, DecidableEq

/-- `name.replace('.', '_')`. -/
def replaceDots (s : Str) : Str := s.map (fun c => if c = '.' then '_' else c)

/-- `JITContext._full_mod_name`: `f'{name}_{self._versions.setdefault(name, 0)}'`
(the `setdefault` also mutates `_versions` on first use of a name). -/
def full_mod_name (st : JITStateM) (name : Str) : Str × JITStateM :=
  let n := replaceDots name
  match dlookup st.versions n with
  | some v => (n ++ '_' :: Nat.toDigits 10 v, st)
  | none =>
    (n ++ '_' :: Nat.toDigits 10 0,
     { st with versions := dinsert st.versions n 0 })

/-- `JITContext._inc_mod_name`: `self._versions[name] += 1`.  (On a name
absent from `_versions` Python would raise `KeyError`; `module_for_abi`
only calls this after `_full_mod_name` has run `setdefault`, so the
key is always present and the `none` branch below is unreachable there.) -/
def inc_mod_name (st : JITStateM) (name : Str) : JITStateM :=
  let n := replaceDots name
  match dlookup st.versions n with
  | some v => { st with versions := dinsert st.versions n (v + 1) }
  | none => st

/-- `Cache.get_module` (cache.py 377–412): a key absent from the
in-memory map returns `None` without consulting the disk; an in-memory
module is returned as-is unless `force_reload`; otherwise the compiled
module is (re)imported from disk when present.  Returns whether a module
was obtained, plus the updated state. -/
def cache_get_module (st : JITStateM) (key : CacheKeyM)
    (force_reload : Bool) : Bool × JITStateM :=
  match alookup st.mem key with
  | none => (false, st)
  | some entry =>
    if ¬ force_reload ∧ entry.module then (true, st)
    else if st.diskMod.contains key then
      (true, { st with mem := ainsert st.mem key ⟨true⟩ })
    else (false, st)

/-- `Cache.get_abi_source` (cache.py 329–353): in-memory source unless
`force_reload`, else read from disk (`setdefault` keeps an existing
entry's module). -/
def cache_get_source (st : JITStateM) (key : CacheKeyM)
    (force_reload : Bool) : Bool × JITStateM :=
  if ¬ force_reload ∧ (alookup st.mem key).isSome then (true, st)
  else if st.diskSrc.contains key then
    (true,
     { st with mem :=
        match alookup st.mem key with
        | some _ => st.mem
        | none => ainsert st.mem key ⟨false⟩ })
  else (false, st)

/-- `Cache.set_abi_source` (cache.py 355–375): `setdefault` into the
in-memory map (preserving an existing entry's module) and write the
source to disk. -/
def cache_set_source (st : JITStateM) (key : CacheKeyM) : JITStateM :=
  { st with
    mem :=
      (match alookup st.mem key with
       | some _ => st.mem
       | none => ainsert st.mem key ⟨false⟩),
    diskSrc := key :: st.diskSrc }

/-- `JITContext._source_from_abi` (`__init__.py` 107–139), with
`readonly = False`: probe the cache unless `force_reload`, else invoke
`codegen.c_source_from_abi` (counted) and store the result. -/
def source_from_abi (st : JITStateM) (key : CacheKeyM)
    (force_reload : Bool) : JITStateM :=
  let probe :=
    if ¬ force_reload then cache_get_source st key force_reload
    else (false, st)
  if probe.1 then probe.2
  else
    let st1 := probe.2
    cache_set_source { st1 with genCount := st1.genCount + 1 } key

/-- `JITContext._compile_module` (`__init__.py` 141–186), with
`readonly = False`: return a cached module unless `force_reload`, else
invoke `compile_module` (counted), then re-import from disk; `error` is
the `RuntimeError` raised when the freshly compiled module cannot be
imported. -/
def jit_compile_module (st : JITStateM) (key : CacheKeyM)
    (force_reload : Bool) : Except Unit JITStateM :=
  let p := cache_get_module st key force_reload
  if ¬ force_reload ∧ p.1 then .ok p.2
  else
    let st1 := p.2
    let st2 := { st1 with compileCount := st1.compileCount + 1,
                          diskMod := key :: st1.diskMod }
    let q := cache_get_module st2 key true
    if q.1 then .ok q.2 else .error ()

/-- `JITContext.module_for_abi` (`__init__.py` 194–250), with
`readonly = False`: build the effective module name and key, probe the
cache, and on a miss bump the version counter (`_inc_mod_name` sits on
EVERY miss path, not only under `force_reload`), generate source, and
compile.  `src_hash` stands for `hash_abi_for_cache(abi, params)`. -/
def module_for_abi (st : JITStateM) (name src_hash : Str)
    (params : ModuleParamsM) (force_reload : Bool) :
    Except Unit (CacheKeyM × JITStateM) :=
  let fm := full_mod_name st name
  let key : CacheKeyM := ⟨fm.1, src_hash, params⟩
  let p := cache_get_module fm.2 key force_reload
  if ¬ force_reload ∧ p.1 then .ok (key, p.2)
  else
    let st1 := inc_mod_name p.2 name
    let st2 := source_from_abi st1 key force_reload
    match jit_compile_module st2 key force_reload with
    | .error e => .error e
    | .ok st3 => .ok (key, st3)

/-- A freshly constructed `JITContext` over an empty cache directory. -/
def jitFresh : JITStateM := ⟨[], [], [], [], 0, 0⟩

/-- First call: fresh context, logical name `abi`, some fingerprint. -/
def c2res1 : Except Unit (CacheKeyM × JITStateM) :=
  module_for_abi jitFresh (str "abi") (str "h") ⟨false, true, true⟩ false

/-- Second call with the SAME name, fingerprint, params, and
`force_reload=False`, on the state the first call left behind. -/
def c2res2 : Except Unit (CacheKeyM × JITStateM) :=
  match c2res1 with
  | .ok (_, st1) =>
    module_for_abi st1 (str "abi") (str "h") ⟨false, true, true⟩ false
  | .error e => .error e

/-- **C2 — refuted (code bug).**  The first call generates and compiles
the artifact under effective name `abi_0` — but, because `_inc_mod_name`
executes on every cache-miss path, it also bumps the per-name version to
1 with `force_reload=False`.  The second, identical call therefore builds
the key under effective name `abi_1`, which matches nothing in the cache:
instead of the claimed cache hit under the same effective module name, it
generates and compiles the artifact AGAIN (both counters reach 2) and
bumps the version to 2.  Every repeated call recompiles. -/
theorem c2_second_call_recompiles_and_bumps_version :
    c2res1.map (fun r =>
        (r.1.mod_name, r.2.genCount, r.2.compileCount,
         dlookup r.2.versions (str "abi")))
      = .ok (str "abi_0", 1, 1, some 1) ∧
    c2res2.map (fun r =>
        (r.1.mod_name, r.2.genCount, r.2.compileCount,
         dlookup r.2.versions (str "abi")))
      = .ok (str "abi_1", 2, 2, some 2) := by
  exact ⟨rfl, rfl⟩

end Jitabi
